import Mathlib

/-!
Podcaster: episode collection, ordering and feed assembly.

A shallow embedding of `main.go` of `lpar/podcaster` and theorems about it.

Modelling conventions.

* Go `string` is `String`.  Go compares strings bytewise over their UTF-8
  encoding, which orders valid UTF-8 text exactly as the code points do, and
  that is the order of `String`.
* Go `int` and `int64` are `Int`; arithmetic that can overflow is wrapped to
  64 bits explicitly (`wrapInt`).
* `time.Time` is an `Int` (an instant), `*url.URL` is the `String` it prints as.
* A method with a pointer receiver that mutates the collection takes the
  collection and returns the new one (with the returned `error`, if any).
* An index out of range (a Go run-time panic) is `none`.
* The standard library's `sort.Sort` is a parameter of `Sort`: the calls of
  `Less` and `Swap` it makes for each length (`SortCalls`), with its documented
  contract as `SortContract`; `insertionLib` is one library that meets it.
* What the program gets from the outside world is a field of `World` (path and
  URL functions, the clock, the feed library, the output file) or of `Disk`
  (what `Walk` uses: extension and lower-casing, opening files, the tag reader).
-/

namespace Podcaster

/-- The enclosure kinds of the feed library that the program uses. -/
inductive EnclosureType where
  | M4A
  | MP3
  deriving DecidableEq

set_option linter.dupNamespace false in
/-- Struct used to store info extracted from the file metadata. -/
structure Episode where
  Title : String
  Show : String
  Provider : String
  Description : String
  Episode : Int
  Series : Int
  Updated : Int
  URL : String
  Bytes : Int
  EnclosureType : EnclosureType
  deriving DecidableEq

/-- The collection `Podcast`. -/
structure Podcast where
  episodes : List Episode
  BaseDir : String
  BaseURL : String
  Title : String
  Description : String
  lastshow : String
  multishow : Bool
  OutFile : String
  deriving DecidableEq

/-- Go's `<` on strings: lexicographic on the characters, a proper prefix first. -/
def strLess (a b : String) : Bool :=
  decide (a.toList < b.toList)

/-- The body of `Less` once the two episodes have been fetched: is `a < b`? -/
def lessEpisodes (a b : Episode) : Bool :=
  if strLess a.Provider b.Provider then true
  else if strLess b.Provider a.Provider then false
  else if strLess a.Show b.Show then !true
  else if strLess b.Show a.Show then !false
  else if a.Series < b.Series then !true
  else if a.Series > b.Series then !false
  else if a.Episode < b.Episode then !true
  else if a.Episode > b.Episode then !false
  else if strLess a.Title b.Title then !true
  else if strLess b.Title a.Title then !false
  else false

/-- Method `Len` returns the number of Episodes in the Podcast. -/
def Podcast.Len (p : Podcast) : Nat :=
  p.episodes.length

/-- Method `Less` returns whether episode `i` should sort before episode `j`. -/
def Podcast.Less (p : Podcast) (i j : Nat) : Option Bool :=
  match p.episodes[i]?, p.episodes[j]? with
  | some a, some b => some (lessEpisodes a b)
  | _, _ => none

/-- Method `Swap` swaps two episodes in the podcast. -/
def Podcast.Swap (p : Podcast) (i j : Nat) : Option Podcast :=
  match p.episodes[i]?, p.episodes[j]? with
  | some tep, some ej => some { p with episodes := (p.episodes.set i ej).set j tep }
  | _, _ => none

/-- The accessors of `tag.Metadata` that the program calls; `Track` and `Disc`
are the first results of `Track()` and `Disc()`, 0 when the tag is absent. -/
structure Tags where
  Title : String
  Album : String
  Artist : String
  Comment : String
  Track : Int
  Disc : Int
  deriving DecidableEq

/-- The accessors of `os.FileInfo` that the program calls, `ModTime` and `Size`,
and `IsDir`, which it never calls: whether the entry is a directory. -/
structure FileInfo where
  ModTime : Int
  Size : Int
  IsDir : Bool := false
  deriving DecidableEq

/-- An enclosure of a feed item, as `AddEnclosure` builds it. -/
structure Enclosure where
  URL : String
  Kind : EnclosureType
  Length : Int
  deriving DecidableEq

/-- The fields of `podcast.Item` that the program sets. -/
structure Item where
  Title : String
  Link : String
  Description : String
  PubDate : Int
  IOrder : String
  Enclosure : Option Enclosure
  deriving DecidableEq

/-- The feed document `pc` that `Write` builds and encodes. -/
structure Feed where
  Title : String
  Link : String
  Description : String
  PubDate : Int
  LastBuildDate : Int
  Items : List Item
  deriving DecidableEq

/-- The errors the program returns, one per `fmt.Errorf` site. -/
inductive Error where
  | cantResolveAbs (path : String)
  | cantResolveRel (abspath baseDir : String)
  | cantParseURL (path : String)
  | addingItem (url : String)
  | cantOpenForWriting
  | encode
  | cantOpenToReadTags (path : String)
  | cantParseTags (path : String)
  | traversal (msg : String)
  deriving DecidableEq

/-- What the program takes from outside: the path and URL functions of the
standard library, the clock, and the outcomes of the feed library and of the
output file. -/
structure World where
  /-- Go's `filepath.Abs`; `none` is an error. -/
  abs : String → Option String
  /-- Go's `filepath.Rel basepath targpath`; `none` is an error. -/
  rel : String → String → Option String
  /-- Go's `url.Parse`; `none` is an error. -/
  parse : String → Option String
  /-- Go's `base.ResolveReference ref`. -/
  resolveReference : String → String → String
  /-- The instant `time.Now()` returns. -/
  now : Int
  /-- Whether `pc.AddItem item` returns an error. -/
  rejects : Feed → Item → Bool
  /-- Whether `os.Create` returns an error. -/
  createFails : Bool
  /-- Whether `pc.Encode` returns an error. -/
  encodeFails : Bool

/-- Method `Add`: the collection after the call, and the error returned (`none` is `nil`). -/
def Podcast.Add (w : World) (p : Podcast) (path : String) (tags : Tags) (info : FileInfo)
    (ext : String) : Podcast × Option Error :=
  match w.abs path with
  | none => (p, some (.cantResolveAbs path))
  | some abspath =>
    match w.rel p.BaseDir abspath with
    | none => (p, some (.cantResolveRel abspath p.BaseDir))
    | some fpath =>
      match w.parse fpath with
      | none => (p, some (.cantParseURL path))
      | some furl =>
        let eurl := w.resolveReference p.BaseURL furl
        let t := tags.Track
        let d := tags.Disc
        let enctype := if ext = ".mp3" then EnclosureType.MP3 else EnclosureType.M4A
        let ep : Episode :=
          { Title := tags.Title
            Show := tags.Album
            Provider := tags.Artist
            Description := tags.Comment
            Episode := t
            Series := d
            Updated := info.ModTime
            Bytes := info.Size
            EnclosureType := enctype
            URL := eurl }
        -- Check whether this is going to be a multi-show podcast
        let p1 : Podcast :=
          if p.lastshow ≠ "" ∧ p.lastshow ≠ ep.Show then { p with multishow := true } else p
        let p2 : Podcast :=
          if p1.lastshow = "" then { p1 with lastshow := ep.Show } else p1
        ({ p2 with episodes := p2.episodes ++ [ep] }, none)

/-- What a run of the standard library's `sort.Sort(data)` does to its data once
it knows `data.Len()`: the calls of `data.Less` and `data.Swap` it makes, each
call of `Less` followed by what the run does on either answer.  The library
reaches the data through these methods only. -/
inductive SortCalls where
  | done
  | less (i j : Nat) (next : Bool → SortCalls)
  | swap (i j : Nat) (next : SortCalls)

/-- The calls of a run of the library made on the collection, through the
methods `Less` and `Swap` of the source. -/
def SortCalls.run : SortCalls → Podcast → Option Podcast
  | .done, p => some p
  | .less i j next, p =>
    match p.Less i j with
    | none => none
    | some b => (next b).run p
  | .swap i j next, p =>
    match p.Swap i j with
    | none => none
    | some q => next.run q

/-- The standard library's `sort.Sort(data)` on the collection: one call of
`Len`, then the calls of `Less` and `Swap` that the library `lib` makes for
that length.  The library is not part of the program and is a parameter. -/
def sortSort (lib : Nat → SortCalls) (p : Podcast) : Option Podcast :=
  (lib p.Len).run p

/-- Method `Sort`: `sort.Sort(p)`. -/
def Podcast.Sort (p : Podcast) (lib : Nat → SortCalls) : Option Podcast :=
  sortSort lib p

/-- The calls of a run of the library made on a slice `l` of any element type,
`Less(i, j)` answering `lt l[i] l[j]` and `Swap(i, j)` exchanging `l[i]` and
`l[j]`; an index out of range is `none`. -/
def SortCalls.runList {α : Type} (lt : α → α → Bool) : SortCalls → List α → Option (List α)
  | .done, l => some l
  | .less i j next, l =>
    match l[i]?, l[j]? with
    | some a, some b => (next (lt a b)).runList lt l
    | _, _ => none
  | .swap i j next, l =>
    match l[i]?, l[j]? with
    | some a, some b => next.runList lt ((l.set i b).set j a)
    | _, _ => none

/-- What the library asks of `Less`: an irreflexive ordering that is transitive,
and such that `Less(i, k)` is false whenever `Less(i, j)` and `Less(j, k)` are. -/
def StrictWeakOrder {α : Type} (lt : α → α → Bool) : Prop :=
  (∀ a, lt a a = false)
  ∧ (∀ a b c, lt a b = true → lt b c = true → lt a c = true)
  ∧ (∀ a b c, lt a b = false → lt b c = false → lt a c = false)

/-- The documented contract of `sort.Sort`: on a slice of any element type whose
`Less` is such an ordering, the run returns (no index out of range) and leaves
the slice in ascending order of `Less`: no element is `Less` than one before it. -/
def SortContract (lib : Nat → SortCalls) : Prop :=
  ∀ (α : Type) (lt : α → α → Bool), StrictWeakOrder lt → ∀ l : List α,
    ∃ r, (lib l.length).runList lt l = some r ∧ r.Pairwise (fun a b => lt b a = false)

/-- The inner loop of the library's `insertionSort`,
`for j := i; j > a && data.Less(j, j-1); j-- { data.Swap(j, j-1) }`, followed
by the calls `next`. -/
def insertionInner (a : Nat) : Nat → SortCalls → SortCalls
  | 0, next => next
  | j + 1, next =>
    if j + 1 > a then
      .less (j + 1) j fun b => if b then .swap (j + 1) j (insertionInner a j next) else next
    else next

/-- The outer loop of `insertionSort`, `for i := a + 1; i < b; i++`, with `n`
iterations left to run from `i`. -/
def insertionOuter (a : Nat) : Nat → Nat → SortCalls
  | 0, _ => .done
  | n + 1, i => insertionInner a i (insertionOuter a n (i + 1))

/-- The library's `insertionSort(data, a, b)`. -/
def insertionSort (a b : Nat) : SortCalls :=
  insertionOuter a (b - (a + 1)) (a + 1)

/-- One library that meets the contract: `insertionSort` on the whole slice, the
routine `sort.Sort` itself runs on a short slice. -/
def insertionLib (n : Nat) : SortCalls :=
  insertionSort 0 n

/-- Go `int` arithmetic: the result wrapped to 64 bits, two's complement. -/
def wrapInt (x : Int) : Int :=
  (x + 2 ^ 63) % 2 ^ 64 - 2 ^ 63

/-- The library's `podcast.New(title, link, description, pubDate, lastBuildDate)`. -/
def podcastNew (title link description : String) (pubDate lastBuildDate : Int) : Feed :=
  { Title := title
    Link := link
    Description := description
    PubDate := pubDate
    LastBuildDate := lastBuildDate
    Items := [] }

/-- The library's `item.AddEnclosure(url, enclosureType, lengthInBytes)`. -/
def Item.AddEnclosure (item : Item) (url : String) (enclosureType : EnclosureType)
    (lengthInBytes : Int) : Item :=
  { item with Enclosure := some { URL := url, Kind := enclosureType, Length := lengthInBytes } }

/-- The library's `pc.AddItem(item)` when it returns no error: the item is appended. -/
def Feed.AddItem (pc : Feed) (item : Item) : Feed :=
  { pc with Items := pc.Items ++ [item] }

/-- The loop of `Write` over the episodes still to visit: the collection and
the feed after the loop, or the error the loop returned with. -/
def writeLoop (w : World) : List Episode → Podcast → Feed → Podcast × Except Error Feed
  | [], p, pc => (p, .ok pc)
  | ep :: rest, p, pc =>
    -- Add a title to the podcast feed based on the show name, if no title was provided
    let p1 : Podcast := if p.Title = "" ∧ ep.Show ≠ "" then { p with Title := ep.Show } else p
    let title := if p1.multishow then ep.Show ++ ": " ++ ep.Title else ep.Title
    let item : Item :=
      { Title := title
        Link := ep.URL
        Description := ep.Description
        PubDate := ep.Updated
        IOrder := toString (wrapInt (100 * ep.Series + ep.Episode))
        Enclosure := none }
    let item := item.AddEnclosure ep.URL ep.EnclosureType ep.Bytes
    if w.rejects pc item then (p1, .error (.addingItem ep.URL))
    else writeLoop w rest p1 (pc.AddItem item)

/-- Method `Write`: the collection after the call, and either the error returned or
the feed document that was encoded to the output file. -/
def Podcast.Write (w : World) (p : Podcast) : Podcast × Except Error Feed :=
  let now := w.now
  let pc := podcastNew p.Title p.BaseURL p.Description now now
  match writeLoop w p.episodes p pc with
  | (p1, .error e) => (p1, .error e)
  | (p1, .ok pc1) =>
    if w.createFails then (p1, .error .cantOpenForWriting)
    else if w.encodeFails then (p1, .error .encode)
    else (p1, .ok pc1)

/-- The collection that `main` constructs: every field it does not set has
Go's zero value. -/
def newPodcast (baseDir baseURL title outFile : String) : Podcast :=
  { episodes := []
    BaseDir := baseDir
    BaseURL := baseURL
    Title := title
    Description := ""
    lastshow := ""
    multishow := false
    OutFile := outFile }

/-- The arguments of one call of `Add`. -/
structure AddArgs where
  path : String
  tags : Tags
  info : FileInfo
  ext : String
  deriving DecidableEq

/-- A run of calls of `Add`, every one of which succeeds: the collection after
the last call, `none` when some call returned an error. -/
def addAll (w : World) : Podcast → List AddArgs → Option Podcast
  | p, [] => some p
  | p, x :: xs =>
    match p.Add w x.path x.tags x.info x.ext with
    | (q, none) => addAll w q xs
    | (_, some _) => none

/-- What `Walk` takes from outside: the path and string functions of the
standard library, the file system and the tag reader. -/
structure Disk where
  /-- Go's `filepath.Ext`. -/
  Ext : String → String
  /-- Go's `strings.ToLower`. -/
  ToLower : String → String
  /-- Go's `os.Open`: the open file, `none` is an error. -/
  Open : String → Option String
  /-- The tag reader's `tag.ReadFrom` on an open file; `none` is an error. -/
  ReadFrom : String → Option Tags

/-- Method `Walk`, the function handed to `filepath.Walk`: the collection after
the call, and the error returned (`none` is `nil`).  The error `Add` returns is
dropped, as in the source. -/
def Podcast.Walk (w : World) (d : Disk) (p : Podcast) (path : String) (info : FileInfo)
    (err : Option Error) : Podcast × Option Error :=
  match err with
  | some e => (p, some e)
  | none =>
    let ext := d.ToLower (d.Ext path)
    if ext = ".m4a" ∨ ext = ".mp3" then
      match d.Open path with
      | none => (p, some (.cantOpenToReadTags path))
      | some f =>
        match d.ReadFrom f with
        | none => (p, some (.cantParseTags path))
        | some tags => ((p.Add w path tags info ext).1, none)
    else (p, none)

/-- The order hint of `Write`, `fmt.Sprintf("%d", 100*ep.Series+ep.Episode)`, as
a function of the series and episode numbers. -/
def orderHint (series episode : Int) : String :=
  toString (wrapInt (100 * series + episode))

/-- The item `Write` builds for an episode, given the collection's `multishow`. -/
def feedItem (multishow : Bool) (ep : Episode) : Item :=
  { Title := if multishow then ep.Show ++ ": " ++ ep.Title else ep.Title
    Link := ep.URL
    Description := ep.Description
    PubDate := ep.Updated
    IOrder := orderHint ep.Series ep.Episode
    Enclosure := some { URL := ep.URL, Kind := ep.EnclosureType, Length := ep.Bytes } }

/-- The episode `Add` appends when the path resolves to the URL `furl`. -/
def addedEpisode (w : World) (p : Podcast) (furl : String) (tags : Tags) (info : FileInfo)
    (ext : String) : Episode :=
  { Title := tags.Title
    Show := tags.Album
    Provider := tags.Artist
    Description := tags.Comment
    Episode := tags.Track
    Series := tags.Disc
    Updated := info.ModTime
    Bytes := info.Size
    EnclosureType := if ext = ".mp3" then EnclosureType.MP3 else EnclosureType.M4A
    URL := w.resolveReference p.BaseURL furl }

/-- A value a Go `int` (64 bits) can hold. -/
def inInt64 (x : Int) : Prop :=
  -2 ^ 63 ≤ x ∧ x < 2 ^ 63

instance (x : Int) : Decidable (inInt64 x) :=
  inferInstanceAs (Decidable (-2 ^ 63 ≤ x ∧ x < 2 ^ 63))

/-- The value of a decimal digit character. -/
def digitValue (c : Char) : Nat :=
  c.toNat - 48

/-- The number a list of decimal digits, most significant first, stands for. -/
def decodeNat (l : List Char) : Nat :=
  l.foldl (fun acc c => 10 * acc + digitValue c) 0

/-- The integer a decimal string with an optional leading minus stands for. -/
def decodeInt : List Char → Int
  | '-' :: t => -(decodeNat t : Int)
  | l => (decodeNat l : Int)

/-- The five sort keys in the order and direction `Less` reads them, as an
element of a lexicographic product (descending keys in the dual order). -/
def sortKey (a : Episode) : String ×ₗ Stringᵒᵈ ×ₗ ℤᵒᵈ ×ₗ ℤᵒᵈ ×ₗ Stringᵒᵈ :=
  toLex (a.Provider, toLex (OrderDual.toDual a.Show, toLex (OrderDual.toDual a.Series,
    toLex (OrderDual.toDual a.Episode, OrderDual.toDual a.Title))))

/-- One run of the inner loop of `insertionSort` read on the list: `rp` is the
part before the moving element `x`, nearest element first, and `suf` the part
after it. -/
def insertDown {α : Type} (lt : α → α → Bool) : List α → α → List α → List α
  | [], x, suf => x :: suf
  | y :: rp, x, suf =>
    if lt x y then insertDown lt rp x (y :: suf) else rp.reverse ++ y :: x :: suf

/-- Example episode: provider "Acme", show "Show A", series 1, episode 1. -/
def exPilot : Episode :=
  { Title := "Pilot", Show := "Show A", Provider := "Acme", Description := "first", Episode := 1,
    Series := 1, Updated := 10, URL := "https://x.example/feed/ep1.mp3", Bytes := 1000,
    EnclosureType := .MP3 }

/-- Example episode: as `exPilot`, but episode 2 (so it sorts before `exPilot`). -/
def exSecond : Episode :=
  { Title := "Second", Show := "Show A", Provider := "Acme", Description := "second",
    Episode := 2, Series := 1, Updated := 20, URL := "https://x.example/feed/ep2.mp3",
    Bytes := 2000, EnclosureType := .MP3 }

/-- Example episode of another provider, "Bravo", and another show, "Show B". -/
def exOther : Episode :=
  { Title := "Other", Show := "Show B", Provider := "Bravo", Description := "other",
    Episode := 7, Series := 3, Updated := 30, URL := "https://x.example/feed/b.m4a",
    Bytes := 3000, EnclosureType := .M4A }

/-- Example collection, as `main` constructs it with no title supplied. -/
def exFresh : Podcast :=
  newPodcast "/out" "https://x.example/feed/" "" "index.xml"

/-- Example collection holding three episodes in discovery order. -/
def exCollection : Podcast :=
  { exFresh with episodes := [exPilot, exOther, exSecond], lastshow := "Show A", multishow := true }

/-- Example world in which no outside step fails. -/
def exWorld : World :=
  { abs := fun path => some path
    rel := fun _ targ => some targ
    parse := fun s => some s
    resolveReference := fun base ref => base ++ ref
    now := 100
    rejects := fun _ _ => false
    createFails := false
    encodeFails := false }

/-- Example collection after one successful `Add`: one episode of "Show A". -/
def exSingle : Podcast :=
  { exFresh with episodes := [exPilot], lastshow := "Show A" }

/-- Example collection with a title supplied. -/
def exTitled : Podcast :=
  { exCollection with Title := "My Feed" }

/-- Example arguments of `Add`: a file tagged with album "Show A". -/
def exArgsA : AddArgs :=
  { path := "ep1.mp3"
    tags := { Title := "Pilot", Album := "Show A", Artist := "Acme", Comment := "first",
              Track := 1, Disc := 1 }
    info := { ModTime := 10, Size := 1000 }
    ext := ".mp3" }

/-- Example arguments of `Add`: a file tagged with album "Show B". -/
def exArgsB : AddArgs :=
  { path := "b.m4a"
    tags := { Title := "Other", Album := "Show B", Artist := "Bravo", Comment := "other",
              Track := 7, Disc := 3 }
    info := { ModTime := 30, Size := 3000 }
    ext := ".m4a" }

/-- Example arguments of `Add`: a file with no album tag. -/
def exArgsEmpty : AddArgs :=
  { path := "loose.mp3"
    tags := { Title := "Loose", Album := "", Artist := "Acme", Comment := "no album",
              Track := 0, Disc := 0 }
    info := { ModTime := 40, Size := 4000 }
    ext := ".mp3" }

/-- Example of `filepath.Ext` read backwards: the remaining path, last character
first, and the characters passed so far. -/
def exExtScan : List Char → List Char → List Char
  | [], _ => []
  | c :: rest, acc =>
    if c = '.' then '.' :: acc
    else if c = '/' then []
    else exExtScan rest (c :: acc)

/-- Example disk: every path opens; the directory "/in/album.mp3" holds no
tags, every other file carries the tags of `exArgsA`; letters are lower-cased
as ASCII. -/
def exDisk : Disk :=
  { Ext := fun path => String.mk (exExtScan path.toList.reverse [])
    ToLower := fun s => String.mk (s.toList.map Char.toLower)
    Open := fun path => some path
    ReadFrom := fun f => if f = "/in/album.mp3" then none else some exArgsA.tags }

/-- Example world in which a path holding a percent sign does not parse as a URL. -/
def exStrictWorld : World :=
  { exWorld with parse := fun s => if '%' ∈ s.toList then none else some s }

/-- Example file info of a directory. -/
def exDirInfo : FileInfo :=
  { ModTime := 50, Size := 4096, IsDir := true }

/-- Example episode whose series number makes `100 * Series` overflow. -/
def exHugeSeries : Episode :=
  { exPilot with Series := 2 ^ 62, Episode := 1 }

theorem strLess_iff (a b : String) : strLess a b = true ↔ a < b := by
  simp [strLess]

theorem strLess_eq (a b : String) : strLess a b = decide (a < b) := by
  simp [strLess]

theorem lessEpisodes_iff (a b : Episode) :
    lessEpisodes a b = true ↔
      (a.Provider < b.Provider
        ∨ (a.Provider = b.Provider ∧ a.Show > b.Show)
        ∨ (a.Provider = b.Provider ∧ a.Show = b.Show ∧ a.Series > b.Series)
        ∨ (a.Provider = b.Provider ∧ a.Show = b.Show ∧ a.Series = b.Series
            ∧ a.Episode > b.Episode)
        ∨ (a.Provider = b.Provider ∧ a.Show = b.Show ∧ a.Series = b.Series
            ∧ a.Episode = b.Episode ∧ a.Title > b.Title)) := by
  simp only [lessEpisodes, strLess_eq, gt_iff_lt]
  rcases lt_trichotomy a.Provider b.Provider with h1 | h1 | h1
  · simp [-String.lt_iff_toList_lt, h1]
  · rcases lt_trichotomy a.Show b.Show with h2 | h2 | h2
    · simp [-String.lt_iff_toList_lt, h1, h2, not_lt_of_lt h2, ne_of_lt h2]
    · rcases lt_trichotomy a.Series b.Series with h3 | h3 | h3
      · simp [-String.lt_iff_toList_lt, h1, h2, h3, not_lt_of_lt h3, ne_of_lt h3]
      · rcases lt_trichotomy a.Episode b.Episode with h4 | h4 | h4
        · simp [-String.lt_iff_toList_lt, h1, h2, h3, h4, not_lt_of_lt h4, ne_of_lt h4]
        · rcases lt_trichotomy a.Title b.Title with h5 | h5 | h5
          · simp [-String.lt_iff_toList_lt, h1, h2, h3, h4, h5, not_lt_of_lt h5, ne_of_lt h5]
          · simp [-String.lt_iff_toList_lt, h1, h2, h3, h4, h5]
          · simp [-String.lt_iff_toList_lt, h1, h2, h3, h4, h5, not_lt_of_lt h5]
        · simp [-String.lt_iff_toList_lt, h1, h2, h3, h4, not_lt_of_lt h4]
      · simp [-String.lt_iff_toList_lt, h1, h2, h3, not_lt_of_lt h3]
    · simp [-String.lt_iff_toList_lt, h1, h2, not_lt_of_lt h2]
  · simp [-String.lt_iff_toList_lt, h1, not_lt_of_lt h1, ne_of_gt h1]

theorem lessEpisodes_iff_key (a b : Episode) :
    lessEpisodes a b = true ↔ sortKey a < sortKey b := by
  rw [lessEpisodes_iff]
  simp only [sortKey, Prod.Lex.lt_iff, OrderDual.toDual_lt_toDual, gt_iff_lt, ofLex_toLex,
    OrderDual.toDual_inj, EmbeddingLike.apply_eq_iff_eq]
  tauto

theorem lessEpisodes_asymm {a b : Episode} (h : lessEpisodes a b = true) :
    lessEpisodes b a = false := by
  rw [lessEpisodes_iff_key] at h
  rw [← Bool.not_eq_true, lessEpisodes_iff_key]
  exact not_lt_of_lt h

theorem lessEpisodes_negTrans {a b c : Episode} (h1 : lessEpisodes a b = false)
    (h2 : lessEpisodes b c = false) : lessEpisodes a c = false := by
  rw [← Bool.not_eq_true, lessEpisodes_iff_key, not_lt] at h1 h2 ⊢
  exact le_trans h2 h1

theorem lessEpisodes_strictWeak : StrictWeakOrder lessEpisodes := by
  refine ⟨?_, ?_, ?_⟩
  · intro a
    rw [← Bool.not_eq_true, lessEpisodes_iff_key]
    exact lt_irrefl _
  · intro a b c h1 h2
    rw [lessEpisodes_iff_key] at h1 h2 ⊢
    exact lt_trans h1 h2
  · intro a b c h1 h2
    exact lessEpisodes_negTrans h1 h2

theorem StrictWeakOrder.asymm {α : Type} {lt : α → α → Bool} (h : StrictWeakOrder lt)
    {a b : α} (hab : lt a b = true) : lt b a = false := by
  by_contra hba
  rw [Bool.not_eq_false] at hba
  have := h.2.1 a b a hab hba
  rw [h.1 a] at this
  exact Bool.false_ne_true this

theorem getElem?_split_fst {α : Type} (pre : List α) (y : α) (suf : List α) :
    (pre ++ y :: suf)[pre.length]? = some y := by
  rw [List.getElem?_append_right (le_refl _)]
  simp

theorem getElem?_split_snd {α : Type} (pre : List α) (y x : α) (suf : List α) :
    (pre ++ y :: x :: suf)[pre.length + 1]? = some x := by
  rw [List.getElem?_append_right (by omega)]
  simp

theorem set_set_split {α : Type} (pre : List α) (y x : α) (suf : List α) :
    ((pre ++ y :: x :: suf).set (pre.length + 1) y).set pre.length x
      = pre ++ x :: y :: suf := by
  rw [List.set_append_right _ _ (by omega)]
  rw [List.set_append_right _ _ (by omega)]
  simp

theorem insertionInner_runList {α : Type} (lt : α → α → Bool) (next : SortCalls)
    (rp : List α) :
    ∀ (x : α) (suf l : List α), l = rp.reverse ++ x :: suf →
      (insertionInner 0 rp.length next).runList lt l
        = next.runList lt (insertDown lt rp x suf) := by
  induction rp with
  | nil =>
    intro x suf l h
    simp only [List.length_nil, insertionInner, insertDown]
    rw [h]; rfl
  | cons y rp ih =>
    intro x suf l h
    have h2 : l = rp.reverse ++ y :: x :: suf := by
      rw [h]; simp
    have hlen : rp.reverse.length = rp.length := List.length_reverse rp
    have hx : l[rp.length + 1]? = some x := by
      rw [h2, ← hlen]; exact getElem?_split_snd _ _ _ _
    have hy : l[rp.length]? = some y := by
      rw [h2, ← hlen]; exact getElem?_split_fst _ _ _
    simp only [List.length_cons, insertionInner, gt_iff_lt, Nat.zero_lt_succ, if_true,
      SortCalls.runList, hx, hy, insertDown]
    by_cases hl : lt x y = true
    · have hq : (l.set (rp.length + 1) y).set rp.length x = rp.reverse ++ x :: y :: suf := by
        rw [h2, ← hlen]; exact set_set_split _ _ _ _
      simp only [hl, if_true, SortCalls.runList, hx, hy, hq]
      exact ih x (y :: suf) _ rfl
    · simp only [Bool.not_eq_true] at hl
      simp only [hl, Bool.false_eq_true, if_false]
      rw [h2]

theorem insertDown_split {α : Type} (lt : α → α → Bool) (rp : List α) :
    ∀ (x : α) (suf : List α), ∃ ys rest, rp = ys ++ rest
      ∧ insertDown lt rp x suf = rest.reverse ++ x :: (ys.reverse ++ suf)
      ∧ (∀ y ∈ ys, lt x y = true)
      ∧ (∀ z, rest.head? = some z → lt x z = false) := by
  induction rp with
  | nil =>
    intro x suf
    exact ⟨[], [], rfl, by simp [insertDown], by simp, by simp⟩
  | cons y rp ih =>
    intro x suf
    by_cases hl : lt x y = true
    · obtain ⟨ys, rest, h1, h2, h3, h4⟩ := ih x (y :: suf)
      refine ⟨y :: ys, rest, by rw [h1]; rfl, ?_, ?_, h4⟩
      · simp [insertDown, hl, h2]
      · intro z hz
        rcases List.mem_cons.1 hz with hz | hz
        · rw [hz]; exact hl
        · exact h3 z hz
    · simp only [Bool.not_eq_true] at hl
      refine ⟨[], y :: rp, rfl, by simp [insertDown, hl], by simp, ?_⟩
      intro z hz
      simp only [List.head?_cons, Option.some.injEq] at hz
      rw [← hz]; exact hl

theorem insertDown_sorted {α : Type} (lt : α → α → Bool) (hlt : StrictWeakOrder lt)
    (rp : List α) (x : α) (suf : List α)
    (hs : (rp.reverse).Pairwise (fun a b => lt b a = false)) :
    ∃ m, insertDown lt rp x suf = m ++ suf ∧ m.length = rp.length + 1
      ∧ m.Pairwise (fun a b => lt b a = false) := by
  obtain ⟨ys, rest, h1, h2, h3, h4⟩ := insertDown_split lt rp x suf
  refine ⟨rest.reverse ++ x :: ys.reverse, by rw [h2]; simp, by rw [h1]; simp; omega, ?_⟩
  rw [h1, List.reverse_append, List.pairwise_append] at hs
  obtain ⟨hs1, hs2, hs3⟩ := hs
  rw [List.pairwise_append]
  refine ⟨hs1, ?_, ?_⟩
  · rw [List.pairwise_cons]
    refine ⟨?_, hs2⟩
    intro y hy
    exact hlt.asymm (h3 y (List.mem_reverse.1 hy))
  · intro a ha b hb
    rcases List.mem_cons.1 hb with hb | hb
    · rw [hb]
      cases rest with
      | nil => simp at ha
      | cons z rest =>
        have hz := h4 z rfl
        rw [List.mem_reverse] at ha
        rcases List.mem_cons.1 ha with ha | ha
        · rw [ha]; exact hz
        · rw [List.reverse_cons, List.pairwise_append] at hs1
          have := hs1.2.2 a (List.mem_reverse.2 ha) z (by simp)
          exact hlt.2.2 _ _ _ hz this
    · exact hs3 a ha b hb

theorem insertionOuter_sorts {α : Type} (lt : α → α → Bool) (hlt : StrictWeakOrder lt)
    (n : Nat) :
    ∀ (i : Nat) (l : List α), n = l.length - i →
      (l.take i).Pairwise (fun a b => lt b a = false) →
      ∃ r, (insertionOuter 0 n i).runList lt l = some r
        ∧ r.Pairwise (fun a b => lt b a = false) := by
  induction n with
  | zero =>
    intro i l hn hs
    refine ⟨l, rfl, ?_⟩
    rwa [List.take_of_length_le (by omega)] at hs
  | succ n ih =>
    intro i l hn hs
    have hi : i < l.length := by omega
    have hsplit : l = (l.take i).reverse.reverse ++ l[i] :: l.drop (i + 1) := by
      rw [List.reverse_reverse, ← List.drop_eq_getElem_cons hi, List.take_append_drop]
    have hlen : (l.take i).reverse.length = i := by
      rw [List.length_reverse, List.length_take]; omega
    have hin := insertionInner_runList lt (insertionOuter 0 n (i + 1)) (l.take i).reverse
      l[i] (l.drop (i + 1)) l hsplit
    rw [hlen] at hin
    obtain ⟨m, hm1, hm2, hm4⟩ := insertDown_sorted lt hlt (l.take i).reverse
      l[i] (l.drop (i + 1)) (by rwa [List.reverse_reverse])
    rw [hlen] at hm2
    have hlen2 : (m ++ l.drop (i + 1)).length = l.length := by
      rw [List.length_append, List.length_drop, hm2]; omega
    obtain ⟨r, hr1, hr2⟩ := ih (i + 1) (m ++ l.drop (i + 1))
      (by rw [hlen2]; omega)
      (by rw [List.take_left' hm2]; exact hm4)
    refine ⟨r, ?_, hr2⟩
    simp only [insertionOuter]
    rw [hin, hm1]
    exact hr1

theorem insertionLib_contract : SortContract insertionLib := by
  intro α lt hlt l
  refine insertionOuter_sorts lt hlt (l.length - 1) 1 l rfl ?_
  cases l with
  | nil => simp
  | cons a l => simp

theorem swap_perm {α : Type} [DecidableEq α] (l : List α) (i j : Nat) (a b : α)
    (ha : l[i]? = some a) (hb : l[j]? = some b) : ((l.set i b).set j a).Perm l := by
  obtain ⟨hi, hia⟩ := List.getElem?_eq_some.1 ha
  obtain ⟨hj, hjb⟩ := List.getElem?_eq_some.1 hb
  rw [List.perm_iff_count]
  intro x
  have hj2 : j < (l.set i b).length := by rw [List.length_set]; exact hj
  have hget : (l.set i b)[j] = b := by
    rw [List.getElem_set]
    split
    · rfl
    · exact hjb
  rw [List.count_set _ _ _ _ hj2, List.count_set _ _ _ _ hi, hget, hia]
  have hca : (if (a == x) = true then 1 else 0) ≤ l.count x := by
    split
    · rename_i h
      have hx : a = x := by simpa using h
      rw [← hx, ← hia]
      exact List.count_pos_iff.2 (List.getElem_mem hi)
    · exact Nat.zero_le _
  by_cases h1 : (a == x) = true <;> by_cases h2 : (b == x) = true <;>
    simp only [h1, h2, if_true, if_false] at hca ⊢ <;> omega

theorem runList_perm {α : Type} [DecidableEq α] (lt : α → α → Bool) (c : SortCalls) :
    ∀ (l r : List α), c.runList lt l = some r → r.Perm l := by
  induction c with
  | done =>
    intro l r h
    simp only [SortCalls.runList, Option.some.injEq] at h
    rw [h]
  | less i j next ih =>
    intro l r h
    rw [SortCalls.runList] at h
    rcases hi : l[i]? with _ | a
    · simp [hi] at h
    · rcases hj : l[j]? with _ | b
      · simp [hi, hj] at h
      · simp only [hi, hj] at h
        exact ih _ l r h
  | swap i j next ih =>
    intro l r h
    rw [SortCalls.runList] at h
    rcases hi : l[i]? with _ | a
    · simp [hi] at h
    · rcases hj : l[j]? with _ | b
      · simp [hi, hj] at h
      · simp only [hi, hj] at h
        exact (ih _ r h).trans (swap_perm l i j a b hi hj)

theorem run_eq_runList (c : SortCalls) :
    ∀ p : Podcast, c.run p
      = (c.runList lessEpisodes p.episodes).map (fun l => { p with episodes := l }) := by
  induction c with
  | done =>
    intro p
    rfl
  | less i j next ih =>
    intro p
    rcases hi : p.episodes[i]? with _ | a
    · simp [SortCalls.run, SortCalls.runList, Podcast.Less, hi]
    · rcases hj : p.episodes[j]? with _ | b
      · simp [SortCalls.run, SortCalls.runList, Podcast.Less, hi, hj]
      · simp only [SortCalls.run, SortCalls.runList, Podcast.Less, hi, hj]
        exact ih _ p
  | swap i j next ih =>
    intro p
    rcases hi : p.episodes[i]? with _ | a
    · simp [SortCalls.run, SortCalls.runList, Podcast.Swap, hi]
    · rcases hj : p.episodes[j]? with _ | b
      · simp [SortCalls.run, SortCalls.runList, Podcast.Swap, hi, hj]
      · simp only [SortCalls.run, SortCalls.runList, Podcast.Swap, hi, hj]
        rw [ih]

theorem sortSort_frame (lib : Nat → SortCalls) (p q : Podcast) (h : p.Sort lib = some q) :
    q.episodes.Perm p.episodes ∧ q = { p with episodes := q.episodes } := by
  simp only [Podcast.Sort, sortSort, run_eq_runList, Option.map_eq_some'] at h
  obtain ⟨r, hr, hq⟩ := h
  rw [← hq]
  exact ⟨runList_perm lessEpisodes _ _ _ hr, rfl⟩

theorem Add_fails (w : World) (p : Podcast) (path : String) (tags : Tags) (info : FileInfo)
    (ext : String) (h : (p.Add w path tags info ext).2 ≠ none) :
    (p.Add w path tags info ext).1 = p := by
  rcases h1 : w.abs path with _ | abspath
  · simp only [Podcast.Add, h1]
  · rcases h2 : w.rel p.BaseDir abspath with _ | fpath
    · simp only [Podcast.Add, h1, h2]
    · rcases h3 : w.parse fpath with _ | furl
      · simp only [Podcast.Add, h1, h2, h3]
      · simp only [Podcast.Add, h1, h2, h3, ne_eq, not_true_eq_false] at h

theorem Add_succeeds (w : World) (p : Podcast) (path : String) (tags : Tags) (info : FileInfo)
    (ext : String) (h : (p.Add w path tags info ext).2 = none) :
    ∃ ep : Episode, ep.Show = tags.Album
      ∧ (p.Add w path tags info ext).1 =
        { p with
          episodes := p.episodes ++ [ep]
          multishow := if p.lastshow ≠ "" ∧ p.lastshow ≠ tags.Album then true else p.multishow
          lastshow := if p.lastshow = "" then tags.Album else p.lastshow } := by
  rcases h1 : w.abs path with _ | abspath
  · simp [Podcast.Add, h1] at h
  · rcases h2 : w.rel p.BaseDir abspath with _ | fpath
    · simp [Podcast.Add, h1, h2] at h
    · rcases h3 : w.parse fpath with _ | furl
      · simp [Podcast.Add, h1, h2, h3] at h
      · simp only [Podcast.Add, h1, h2, h3]
        refine ⟨
          { Title := tags.Title, Show := tags.Album, Provider := tags.Artist,
            Description := tags.Comment, Episode := tags.Track, Series := tags.Disc,
            Updated := info.ModTime, Bytes := info.Size,
            EnclosureType := if ext = ".mp3" then EnclosureType.MP3 else EnclosureType.M4A,
            URL := w.resolveReference p.BaseURL furl }, rfl, ?_⟩
        by_cases hl : p.lastshow = ""
        · simp only [hl, ne_eq, not_true_eq_false, false_and, if_false, if_true]
        · by_cases hs : p.lastshow = tags.Album
          · simp only [hl, ← hs, ne_eq, not_true_eq_false, and_false, if_false]
          · simp only [hl, hs, ne_eq, not_false_eq_true, and_self, if_true, if_false]

theorem writeLoop_cons (w : World) (ep : Episode) (rest : List Episode) (p : Podcast)
    (pc : Feed) :
    ∃ item : Item, writeLoop w (ep :: rest) p pc =
      if w.rejects pc item then
        (if p.Title = "" ∧ ep.Show ≠ "" then { p with Title := ep.Show } else p,
          .error (.addingItem ep.URL))
      else
        writeLoop w rest (if p.Title = "" ∧ ep.Show ≠ "" then { p with Title := ep.Show } else p)
          (pc.AddItem item) :=
  ⟨_, rfl⟩

theorem writeLoop_feed_title (w : World) (eps : List Episode) :
    ∀ (p : Podcast) (pc feed : Feed), (writeLoop w eps p pc).2 = .ok feed →
      feed.Title = pc.Title := by
  induction eps with
  | nil =>
    intro p pc feed h
    simp only [writeLoop, Except.ok.injEq] at h
    rw [← h]
  | cons ep rest ih =>
    intro p pc feed h
    obtain ⟨item, heq⟩ := writeLoop_cons w ep rest p pc
    rw [heq] at h
    by_cases hr : w.rejects pc item = true
    · rw [if_pos hr] at h
      simp at h
    · rw [if_neg hr] at h
      exact ih _ (pc.AddItem item) _ h

theorem writeLoop_titled (w : World) (eps : List Episode) :
    ∀ (p : Podcast) (pc : Feed), p.Title ≠ "" → (writeLoop w eps p pc).1 = p := by
  induction eps with
  | nil =>
    intro p pc _
    rfl
  | cons ep rest ih =>
    intro p pc h
    obtain ⟨item, heq⟩ := writeLoop_cons w ep rest p pc
    rw [heq]
    simp only [h, false_and, if_false]
    by_cases hr : w.rejects pc item = true
    · rw [if_pos hr]
    · rw [if_neg hr]
      exact ih _ _ h

theorem writeLoop_multishow (w : World) (eps : List Episode) :
    ∀ (p : Podcast) (pc : Feed), (writeLoop w eps p pc).1.multishow = p.multishow := by
  induction eps with
  | nil =>
    intro p pc
    rfl
  | cons ep rest ih =>
    intro p pc
    obtain ⟨item, heq⟩ := writeLoop_cons w ep rest p pc
    rw [heq]
    by_cases hr : w.rejects pc item = true
    · rw [if_pos hr]
      split <;> rfl
    · rw [if_neg hr, ih]
      split <;> rfl

theorem writeLoop_accepts (w : World) (hw : ∀ pc item, w.rejects pc item = false)
    (eps : List Episode) :
    ∀ (p : Podcast) (pc : Feed), ∃ feed, (writeLoop w eps p pc).2 = .ok feed := by
  induction eps with
  | nil =>
    intro p pc
    exact ⟨pc, rfl⟩
  | cons ep rest ih =>
    intro p pc
    obtain ⟨item, heq⟩ := writeLoop_cons w ep rest p pc
    rw [heq]
    simp only [hw, Bool.false_eq_true, if_false]
    exact ih _ _

theorem Write_fst (w : World) (p : Podcast) :
    (p.Write w).1
      = (writeLoop w p.episodes p (podcastNew p.Title p.BaseURL p.Description w.now w.now)).1 := by
  unfold Podcast.Write
  simp only
  split
  · rename_i h; rw [h]
  · rename_i h; rw [h]
    split
    · rfl
    · split <;> rfl

theorem Write_snd_ok (w : World) (p : Podcast) (feed : Feed) (h : (p.Write w).2 = .ok feed) :
    (writeLoop w p.episodes p (podcastNew p.Title p.BaseURL p.Description w.now w.now)).2
      = .ok feed := by
  unfold Podcast.Write at h
  simp only at h
  split at h
  · simp at h
  · rename_i h1; rw [h1]
    split at h
    · simp at h
    · split at h
      · simp at h
      · exact h

theorem Write_snd_of_ok (w : World) (p : Podcast) (feed : Feed)
    (h : (writeLoop w p.episodes p
      (podcastNew p.Title p.BaseURL p.Description w.now w.now)).2 = .ok feed)
    (hc : w.createFails = false) (he : w.encodeFails = false) :
    (p.Write w).2 = .ok feed := by
  unfold Podcast.Write
  simp only
  split
  · rename_i h1; rw [h1] at h; simp at h
  · rename_i h1; rw [h1] at h
    simp only [hc, he, Bool.false_eq_true, if_false]
    exact h

theorem addAll_cons (w : World) (p r : Podcast) (x : AddArgs) (xs : List AddArgs)
    (h : addAll w p (x :: xs) = some r) :
    (p.Add w x.path x.tags x.info x.ext).2 = none
      ∧ addAll w (p.Add w x.path x.tags x.info x.ext).1 xs = some r := by
  rcases hadd : p.Add w x.path x.tags x.info x.ext with ⟨q, e⟩
  cases e with
  | none =>
    simp only [addAll, hadd] at h
    exact ⟨rfl, h⟩
  | some e =>
    simp [addAll, hadd] at h

theorem addAll_same_show (w : World) (S : String) (xs : List AddArgs) :
    ∀ (p q : Podcast), (∀ x ∈ xs, x.tags.Album = S) → p.multishow = false →
      (p.lastshow = "" ∨ p.lastshow = S) → addAll w p xs = some q → q.multishow = false := by
  induction xs with
  | nil =>
    intro p q _ hm _ h
    simp only [addAll, Option.some.injEq] at h
    rw [← h]; exact hm
  | cons x xs ih =>
    intro p q hx hm hl h
    obtain ⟨hok, hrest⟩ := addAll_cons w p q x xs h
    obtain ⟨ep, _, hp⟩ := Add_succeeds w p x.path x.tags x.info x.ext hok
    have hxS : x.tags.Album = S := hx x (List.mem_cons_self _ _)
    refine ih _ q (fun y hy => hx y (List.mem_cons_of_mem _ hy)) ?_ ?_ hrest
    · rw [hp, hxS]
      rcases hl with hl | hl
      · simp [hl, hm]
      · simp [hl, hm]
    · rw [hp, hxS]
      rcases hl with hl | hl
      · simp [hl]
      · by_cases hS : S = ""
        · simp [hl, hS]
        · simp [hl, hS]

theorem addAll_lastshow (w : World) (xs : List AddArgs) :
    ∀ (p q : Podcast), addAll w p xs = some q →
      q.episodes.map (fun e => e.Show)
          = p.episodes.map (fun e => e.Show) ++ xs.map (fun x => x.tags.Album)
        ∧ q.lastshow = if p.lastshow = "" then
            ((xs.map (fun x => x.tags.Album)).find? (fun s => s ≠ "")).getD ""
          else p.lastshow := by
  induction xs with
  | nil =>
    intro p q h
    simp only [addAll, Option.some.injEq] at h
    rw [← h]
    by_cases hl : p.lastshow = ""
    · simp [hl]
    · simp [hl]
  | cons x xs ih =>
    intro p q h
    obtain ⟨hok, hrest⟩ := addAll_cons w p q x xs h
    obtain ⟨ep, hep, hp⟩ := Add_succeeds w p x.path x.tags x.info x.ext hok
    obtain ⟨h1, h2⟩ := ih _ q hrest
    rw [hp] at h1 h2
    constructor
    · rw [h1]
      simp [hep]
    · rw [h2]
      by_cases hl : p.lastshow = ""
      · by_cases hx : x.tags.Album = ""
        · simp [hl, hx]
        · simp [hl, hx]
      · simp [hl]

theorem sortSort_sorts (lib : Nat → SortCalls) (hlib : SortContract lib) (p : Podcast) :
    ∃ q, p.Sort lib = some q ∧ q.episodes.Perm p.episodes
      ∧ q.episodes.Pairwise (fun a b => lessEpisodes b a = false)
      ∧ q = { p with episodes := q.episodes } := by
  obtain ⟨r, hr, hs⟩ := hlib Episode lessEpisodes lessEpisodes_strictWeak p.episodes
  have hq : p.Sort lib = some { p with episodes := r } := by
    simp only [Podcast.Sort, sortSort, run_eq_runList, Podcast.Len, hr, Option.map_some']
  exact ⟨_, hq, (sortSort_frame lib p _ hq).1, hs, rfl⟩

/-- C1: `Less(i, j)` on the episodes `a` and `b` at positions `i` and `j` is the
comparator body on `a` and `b`, and it is true exactly when the five-key
lexicographic comparison decides for `a`: provider ascending, then show, series,
episode and title descending.  Replacing the description, URL, time, size and
enclosure type of either episode does not change the result. -/
theorem Less_iff_five_keys (p : Podcast) (i j : Nat) (a b : Episode)
    (ha : p.episodes[i]? = some a) (hb : p.episodes[j]? = some b) :
    p.Less i j = some (lessEpisodes a b)
    ∧ (p.Less i j = some true ↔
        (a.Provider < b.Provider
          ∨ (a.Provider = b.Provider ∧ a.Show > b.Show)
          ∨ (a.Provider = b.Provider ∧ a.Show = b.Show ∧ a.Series > b.Series)
          ∨ (a.Provider = b.Provider ∧ a.Show = b.Show ∧ a.Series = b.Series
              ∧ a.Episode > b.Episode)
          ∨ (a.Provider = b.Provider ∧ a.Show = b.Show ∧ a.Series = b.Series
              ∧ a.Episode = b.Episode ∧ a.Title > b.Title)))
    ∧ (∀ (d1 d2 u1 u2 : String) (t1 t2 n1 n2 : Int) (k1 k2 : EnclosureType),
        lessEpisodes
          { a with Description := d1, URL := u1, Updated := t1, Bytes := n1, EnclosureType := k1 }
          { b with Description := d2, URL := u2, Updated := t2, Bytes := n2, EnclosureType := k2 }
        = lessEpisodes a b) := by
  have hless : p.Less i j = some (lessEpisodes a b) := by
    simp only [Podcast.Less, ha, hb]
  refine ⟨hless, ?_, ?_⟩
  · rw [hless, Option.some.injEq]
    exact lessEpisodes_iff a b
  · intros
    rfl

/-- Witness of C1: in the example collection, position 2 against position 0. -/
theorem Less_iff_five_keys_witness :
    exCollection.episodes[2]? = some exSecond ∧ exCollection.episodes[0]? = some exPilot
    ∧ exCollection.Less 2 0 = some (lessEpisodes exSecond exPilot) :=
  ⟨by decide, by decide,
    (Less_iff_five_keys exCollection 2 0 exSecond exPilot (by decide) (by decide)).1⟩

/-- C2: the comparator is a strict total order on the five-key tuples: of
`Less(a, b)`, `Less(b, a)` and "all five keys are equal" exactly one holds, and
`Less(a, b)` with `Less(b, c)` gives `Less(a, c)`. -/
theorem Less_strict_total_order (a b c : Episode) :
    ((lessEpisodes a b = true ∧ lessEpisodes b a = false
        ∧ ¬ (a.Provider = b.Provider ∧ a.Show = b.Show ∧ a.Series = b.Series
              ∧ a.Episode = b.Episode ∧ a.Title = b.Title))
      ∨ (lessEpisodes a b = false ∧ lessEpisodes b a = true
        ∧ ¬ (a.Provider = b.Provider ∧ a.Show = b.Show ∧ a.Series = b.Series
              ∧ a.Episode = b.Episode ∧ a.Title = b.Title))
      ∨ (lessEpisodes a b = false ∧ lessEpisodes b a = false
        ∧ (a.Provider = b.Provider ∧ a.Show = b.Show ∧ a.Series = b.Series
              ∧ a.Episode = b.Episode ∧ a.Title = b.Title)))
    ∧ (lessEpisodes a b = true → lessEpisodes b c = true → lessEpisodes a c = true) := by
  have hkey : (a.Provider = b.Provider ∧ a.Show = b.Show ∧ a.Series = b.Series
      ∧ a.Episode = b.Episode ∧ a.Title = b.Title) ↔ sortKey a = sortKey b := by
    simp only [sortKey, EmbeddingLike.apply_eq_iff_eq, Prod.mk.injEq]
  constructor
  · rw [hkey]
    rcases lt_trichotomy (sortKey a) (sortKey b) with h | h | h
    · exact Or.inl ⟨(lessEpisodes_iff_key a b).2 h,
        lessEpisodes_asymm ((lessEpisodes_iff_key a b).2 h), ne_of_lt h⟩
    · refine Or.inr (Or.inr ⟨?_, ?_, h⟩)
      · rw [← Bool.not_eq_true, lessEpisodes_iff_key, h]; exact lt_irrefl _
      · rw [← Bool.not_eq_true, lessEpisodes_iff_key, h]; exact lt_irrefl _
    · exact Or.inr (Or.inl ⟨lessEpisodes_asymm ((lessEpisodes_iff_key b a).2 h),
        (lessEpisodes_iff_key b a).2 h, ne_of_gt h⟩)
  · intro h1 h2
    rw [lessEpisodes_iff_key] at h1 h2 ⊢
    exact lt_trans h1 h2

/-- Witness of C2: `exSecond` sorts before `exPilot`, which sorts before `exOther`. -/
theorem Less_strict_total_order_witness :
    lessEpisodes exSecond exPilot = true ∧ lessEpisodes exPilot exOther = true
    ∧ lessEpisodes exSecond exOther = true :=
  ⟨by decide, by decide,
    (Less_strict_total_order exSecond exPilot exOther).2 (by decide) (by decide)⟩

/-- C3: with a standard library whose `sort.Sort` meets its documented contract,
`Sort` returns; afterwards the episodes are a permutation of the episodes
before, no later position is `Less` than an earlier one, and every other field
of the collection is unchanged.  The permutation and the unchanged fields hold
for every run of every library, whatever calls of `Less` and `Swap` it makes. -/
theorem Sort_permutes_and_orders (lib : Nat → SortCalls) (hlib : SortContract lib)
    (p : Podcast) :
    (∃ q, p.Sort lib = some q
      ∧ q.episodes.Perm p.episodes
      ∧ (∀ i j, i < j → j < q.episodes.length → q.Less j i = some false)
      ∧ q.Title = p.Title ∧ q.Description = p.Description ∧ q.lastshow = p.lastshow
      ∧ q.multishow = p.multishow ∧ q.BaseDir = p.BaseDir ∧ q.BaseURL = p.BaseURL
      ∧ q.OutFile = p.OutFile)
    ∧ (∀ (lib2 : Nat → SortCalls) (q2 : Podcast), p.Sort lib2 = some q2 →
        q2.episodes.Perm p.episodes
        ∧ q2.Title = p.Title ∧ q2.Description = p.Description ∧ q2.lastshow = p.lastshow
        ∧ q2.multishow = p.multishow ∧ q2.BaseDir = p.BaseDir ∧ q2.BaseURL = p.BaseURL
        ∧ q2.OutFile = p.OutFile) := by
  constructor
  · obtain ⟨q, h1, h2, h3, h4⟩ := sortSort_sorts lib hlib p
    refine ⟨q, h1, h2, ?_, ?_⟩
    · intro i j hij hj
      have hi : i < q.episodes.length := lt_trans hij hj
      have := (List.pairwise_iff_getElem.1 h3) i j hi hj hij
      simp only [Podcast.Less, List.getElem?_eq_getElem hi, List.getElem?_eq_getElem hj, this]
    · rw [h4]
      exact ⟨rfl, rfl, rfl, rfl, rfl, rfl, rfl⟩
  · intro lib2 q2 h
    obtain ⟨h2, h4⟩ := sortSort_frame lib2 p q2 h
    refine ⟨h2, ?_⟩
    rw [h4]
    exact ⟨rfl, rfl, rfl, rfl, rfl, rfl, rfl⟩

/-- Witness of C3: the example collection sorted by the library's
`insertionSort`: "Second" (episode 2) comes before "Pilot" (episode 1) of the
same provider and show, and the other provider comes last. -/
theorem Sort_permutes_and_orders_witness :
    ∃ q, exCollection.Sort insertionLib = some q
      ∧ q.episodes = [exSecond, exPilot, exOther]
      ∧ q.episodes.Perm exCollection.episodes
      ∧ q.Less 1 0 = some false ∧ q.Less 2 1 = some false ∧ q.Less 2 0 = some false := by
  obtain ⟨⟨q, h1, h2, h3, _⟩, _⟩ :=
    Sort_permutes_and_orders insertionLib insertionLib_contract exCollection
  have hq : exCollection.Sort insertionLib
      = some { exCollection with episodes := [exSecond, exPilot, exOther] } := by
    decide
  have hqe : q.episodes = [exSecond, exPilot, exOther] := by
    rw [Option.some.inj (h1.symm.trans hq)]
  have hlen : q.episodes.length = 3 := by rw [hqe]; rfl
  exact ⟨q, h1, hqe, h2, h3 0 1 (by decide) (by omega), h3 1 2 (by decide) (by omega),
    h3 0 2 (by decide) (by omega)⟩

/-- C4: on a collection with no title and the single episode of "Show A", `Write`
succeeds and assigns "Show A" to the collection's `Title`, but the feed document
it encodes was created before the loop and its title is the empty string. -/
theorem Write_untitled_feed_title_empty :
    exSingle.Title = ""
    ∧ exSingle.episodes.map (fun e => e.Show) = ["Show A"]
    ∧ (exSingle.Write exWorld).1.Title = "Show A"
    ∧ ((exSingle.Write exWorld).2.toOption.map fun feed => feed.Title) = some "" := by
  decide

/-- C5: when the collection's `Title` is non-empty, `Write` leaves the collection
as it is (so its `Title` is unchanged), every feed document it encodes has exactly
that title, and it does encode one whenever the feed library rejects no item and
the output file can be created and written. -/
theorem Write_keeps_supplied_title (w : World) (p : Podcast) (h : p.Title ≠ "") :
    (p.Write w).1 = p
    ∧ (p.Write w).1.Title = p.Title
    ∧ (∀ feed, (p.Write w).2 = .ok feed → feed.Title = p.Title)
    ∧ ((∀ pc item, w.rejects pc item = false) → w.createFails = false →
        w.encodeFails = false → ∃ feed, (p.Write w).2 = .ok feed ∧ feed.Title = p.Title) := by
  have h1 : (p.Write w).1 = p := by
    rw [Write_fst]; exact writeLoop_titled w _ _ _ h
  have h2 : ∀ feed, (p.Write w).2 = .ok feed → feed.Title = p.Title := by
    intro feed hf
    exact writeLoop_feed_title w _ _ _ _ (Write_snd_ok w p feed hf)
  refine ⟨h1, by rw [h1], h2, ?_⟩
  intro hw hc he
  obtain ⟨feed, hf⟩ := writeLoop_accepts w hw p.episodes p
    (podcastNew p.Title p.BaseURL p.Description w.now w.now)
  have := Write_snd_of_ok w p feed hf hc he
  exact ⟨feed, this, h2 feed this⟩

/-- Witness of C5: the example collection with the title "My Feed". -/
theorem Write_keeps_supplied_title_witness :
    exTitled.Title ≠ "" ∧ (exTitled.Write exWorld).1.Title = exTitled.Title
    ∧ ∃ feed, (exTitled.Write exWorld).2 = .ok feed ∧ feed.Title = exTitled.Title :=
  ⟨by decide, (Write_keeps_supplied_title exWorld exTitled (by decide)).2.1,
    (Write_keeps_supplied_title exWorld exTitled (by decide)).2.2.2
      (fun _ _ => rfl) rfl rfl⟩

/-- C6: from a state with `multishow = false`, a successful `Add` appends an
episode whose show is the album tag, and `multishow` is true afterwards if and
only if `lastshow` was non-empty before and the new show differs from it. -/
theorem Add_sets_multishow_iff (w : World) (p : Podcast) (path : String) (tags : Tags)
    (info : FileInfo) (ext : String) (hm : p.multishow = false)
    (hok : (p.Add w path tags info ext).2 = none) :
    (∃ ep : Episode, ep.Show = tags.Album
        ∧ (p.Add w path tags info ext).1.episodes = p.episodes ++ [ep])
    ∧ ((p.Add w path tags info ext).1.multishow = true ↔
        (p.lastshow ≠ "" ∧ tags.Album ≠ p.lastshow)) := by
  obtain ⟨ep, hep, hp⟩ := Add_succeeds w p path tags info ext hok
  refine ⟨⟨ep, hep, by rw [hp]⟩, ?_⟩
  rw [hp]
  by_cases hc : p.lastshow ≠ "" ∧ p.lastshow ≠ tags.Album
  · simp only [if_pos hc, true_iff]
    exact ⟨hc.1, fun e => hc.2 e.symm⟩
  · simp only [if_neg hc, hm, Bool.false_eq_true, false_iff]
    exact fun e => hc ⟨e.1, fun e2 => e.2 e2.symm⟩

/-- Witness of C6: adding an episode of "Show B" after one of "Show A". -/
theorem Add_sets_multishow_iff_witness :
    exSingle.multishow = false
    ∧ (exSingle.Add exWorld exArgsB.path exArgsB.tags exArgsB.info exArgsB.ext).2 = none
    ∧ ((exSingle.Add exWorld exArgsB.path exArgsB.tags exArgsB.info exArgsB.ext).1.multishow = true
        ↔ (exSingle.lastshow ≠ "" ∧ exArgsB.tags.Album ≠ exSingle.lastshow)) :=
  ⟨by decide, by decide,
    (Add_sets_multishow_iff exWorld exSingle exArgsB.path exArgsB.tags exArgsB.info exArgsB.ext
      (by decide) (by decide)).2⟩

/-- C7: the collection `main` constructs has `multishow = false`, and from a
state with `multishow = true` the flag is still true after `Add` (whether it
returns an error or not), after `Sort` (for every run of every library, and
`Sort` does return when the library meets its contract), and after `Write`. -/
theorem multishow_monotonic (w : World) (p : Podcast) (hm : p.multishow = true) :
    (∀ baseDir baseURL title outFile : String,
        (newPodcast baseDir baseURL title outFile).multishow = false)
    ∧ (∀ (path : String) (tags : Tags) (info : FileInfo) (ext : String),
        (p.Add w path tags info ext).1.multishow = true)
    ∧ (∀ (lib : Nat → SortCalls) (q : Podcast), p.Sort lib = some q → q.multishow = true)
    ∧ (∀ lib : Nat → SortCalls, SortContract lib →
        ∃ q, p.Sort lib = some q ∧ q.multishow = true)
    ∧ (p.Write w).1.multishow = true := by
  refine ⟨fun _ _ _ _ => rfl, ?_, ?_, ?_, ?_⟩
  · intro path tags info ext
    by_cases hok : (p.Add w path tags info ext).2 = none
    · obtain ⟨ep, _, hp⟩ := Add_succeeds w p path tags info ext hok
      rw [hp]
      simp [hm]
    · rw [Add_fails w p path tags info ext hok]
      exact hm
  · intro lib q h
    rw [(sortSort_frame lib p q h).2]; exact hm
  · intro lib hlib
    obtain ⟨q, h1, _, _, h2⟩ := sortSort_sorts lib hlib p
    refine ⟨q, h1, ?_⟩
    rw [h2]; exact hm
  · rw [Write_fst, writeLoop_multishow]
    exact hm

/-- Witness of C7: the example collection, whose flag is set. -/
theorem multishow_monotonic_witness :
    exCollection.multishow = true
    ∧ (exCollection.Add exWorld exArgsA.path exArgsA.tags exArgsA.info exArgsA.ext).1.multishow
        = true
    ∧ (∃ q, exCollection.Sort insertionLib = some q ∧ q.multishow = true)
    ∧ (exCollection.Write exWorld).1.multishow = true :=
  ⟨by decide, (multishow_monotonic exWorld exCollection (by decide)).2.1 _ _ _ _,
    (multishow_monotonic exWorld exCollection (by decide)).2.2.2.1 insertionLib
      insertionLib_contract,
    (multishow_monotonic exWorld exCollection (by decide)).2.2.2.2⟩

/-- C8, as the claim states it, fails: after an episode of "Show A", a successful
`Add` of an episode with the empty show sets `multishow`. -/
theorem empty_show_Add_sets_multishow :
    exSingle.multishow = false ∧ exSingle.lastshow = "Show A" ∧ exArgsEmpty.tags.Album = ""
    ∧ (exSingle.Add exWorld exArgsEmpty.path exArgsEmpty.tags exArgsEmpty.info
        exArgsEmpty.ext).2 = none
    ∧ (exSingle.Add exWorld exArgsEmpty.path exArgsEmpty.tags exArgsEmpty.info
        exArgsEmpty.ext).1.multishow = true := by
  decide

/-- C8, amended: a successful `Add` of an episode whose show is the empty string
leaves `multishow` unchanged when `lastshow` is empty and sets it when `lastshow`
is non-empty (so it is true afterwards iff it was true before or `lastshow` was
non-empty), and, once `lastshow` is non-empty, leaves `lastshow` unchanged. -/
theorem Add_empty_show (w : World) (p : Podcast) (path : String) (tags : Tags)
    (info : FileInfo) (ext : String) (hs : tags.Album = "")
    (hok : (p.Add w path tags info ext).2 = none) :
    (p.lastshow = "" → (p.Add w path tags info ext).1.multishow = p.multishow)
    ∧ (p.lastshow ≠ "" → (p.Add w path tags info ext).1.multishow = true)
    ∧ ((p.Add w path tags info ext).1.multishow = true ↔
        (p.multishow = true ∨ p.lastshow ≠ ""))
    ∧ (p.lastshow ≠ "" → (p.Add w path tags info ext).1.lastshow = p.lastshow) := by
  obtain ⟨ep, _, hp⟩ := Add_succeeds w p path tags info ext hok
  rw [hp, hs]
  by_cases hl : p.lastshow = ""
  · simp [hl]
  · simp [hl]

/-- Witness of C8 as amended: an episode with the empty show added to the
collection `main` constructs. -/
theorem Add_empty_show_witness :
    exArgsEmpty.tags.Album = ""
    ∧ (exFresh.Add exWorld exArgsEmpty.path exArgsEmpty.tags exArgsEmpty.info
        exArgsEmpty.ext).2 = none
    ∧ ((exFresh.Add exWorld exArgsEmpty.path exArgsEmpty.tags exArgsEmpty.info
          exArgsEmpty.ext).1.multishow = true
        ↔ (exFresh.multishow = true ∨ exFresh.lastshow ≠ "")) :=
  ⟨by decide, by decide,
    (Add_empty_show exWorld exFresh exArgsEmpty.path exArgsEmpty.tags exArgsEmpty.info
      exArgsEmpty.ext (by decide) (by decide)).2.2.1⟩

/-- C9, as the claim states it, fails: from the collection `main` constructs,
after successful `Add`s of an episode with the empty show and then one of
"Show A", `lastshow` is "Show A" while the first episode's show is empty. -/
theorem lastshow_not_first_episode_show :
    ((addAll exWorld exFresh [exArgsEmpty, exArgsA]).map fun p =>
        (p.episodes.map (fun e => e.Show), p.lastshow))
      = some (["", "Show A"], "Show A") := by
  decide

/-- C9, amended: from the collection `main` constructs, after every run of
successful `Add`s the shows of the episodes are the album tags in the order
added, and `lastshow` is the show of the first episode in that order whose show
is non-empty, or the empty string when there is none (in particular when no
episode was added); so it is the show of the first episode whenever that show
is non-empty. -/
theorem lastshow_first_nonempty_show (w : World) (baseDir baseURL title outFile : String)
    (xs : List AddArgs) (p : Podcast)
    (h : addAll w (newPodcast baseDir baseURL title outFile) xs = some p) :
    p.episodes.map (fun e => e.Show) = xs.map (fun x => x.tags.Album)
    ∧ p.lastshow = ((p.episodes.map (fun e => e.Show)).find? (fun s => s ≠ "")).getD ""
    ∧ (xs = [] → p.lastshow = "")
    ∧ (∀ e, p.episodes[0]? = some e → e.Show ≠ "" → p.lastshow = e.Show) := by
  obtain ⟨h1, h2⟩ := addAll_lastshow w xs _ p h
  have h1' : p.episodes.map (fun e => e.Show) = xs.map (fun x => x.tags.Album) := by
    rw [h1]; rfl
  have h2' : p.lastshow
      = ((p.episodes.map (fun e => e.Show)).find? (fun s => s ≠ "")).getD "" := by
    rw [h2, h1']; rfl
  refine ⟨h1', h2', ?_, ?_⟩
  · intro hx
    rw [h2, hx]; rfl
  · intro e he hne
    rw [h2']
    cases hp : p.episodes with
    | nil => rw [hp] at he; simp at he
    | cons a l =>
      rw [hp] at he
      simp only [List.getElem?_cons_zero, Option.some.injEq] at he
      rw [he]
      simp [hne]

/-- Witness of C9 as amended: the run of the counterexample. -/
theorem lastshow_first_nonempty_show_witness :
    ∃ p, addAll exWorld (newPodcast "/out" "https://x.example/feed/" "" "index.xml")
        [exArgsEmpty, exArgsA] = some p
      ∧ p.lastshow = ((p.episodes.map (fun e => e.Show)).find? (fun s => s ≠ "")).getD "" :=
  ⟨_, rfl, (lastshow_first_nonempty_show exWorld "/out" "https://x.example/feed/" ""
    "index.xml" [exArgsEmpty, exArgsA] _ rfl).2.1⟩

/-- C10: from the collection `main` constructs, `multishow` is false after any
number of successful `Add`s that all carry one non-empty show `S`, false after
any number that all carry the empty show, and, for non-empty `S` and `T` with
`T ≠ S`, after `Add`s of shows `S`, `T`, `S` it is false after the first, true
after the second and true after the third. -/
theorem multishow_scenarios (w : World) (baseDir baseURL title outFile : String) :
    (∀ (S : String) (xs : List AddArgs) (p : Podcast), S ≠ "" →
        (∀ x ∈ xs, x.tags.Album = S) →
        addAll w (newPodcast baseDir baseURL title outFile) xs = some p → p.multishow = false)
    ∧ (∀ (xs : List AddArgs) (p : Podcast), (∀ x ∈ xs, x.tags.Album = "") →
        addAll w (newPodcast baseDir baseURL title outFile) xs = some p → p.multishow = false)
    ∧ (∀ (S T : String) (x1 x2 x3 : AddArgs) (p1 p2 p3 : Podcast), S ≠ "" → T ≠ "" → T ≠ S →
        x1.tags.Album = S → x2.tags.Album = T → x3.tags.Album = S →
        addAll w (newPodcast baseDir baseURL title outFile) [x1] = some p1 →
        addAll w (newPodcast baseDir baseURL title outFile) [x1, x2] = some p2 →
        addAll w (newPodcast baseDir baseURL title outFile) [x1, x2, x3] = some p3 →
        p1.multishow = false ∧ p2.multishow = true ∧ p3.multishow = true) := by
  refine ⟨?_, ?_, ?_⟩
  · intro S xs p _ hx h
    exact addAll_same_show w S xs _ p hx rfl (Or.inl rfl) h
  · intro xs p hx h
    exact addAll_same_show w "" xs _ p hx rfl (Or.inl rfl) h
  · intro S T x1 x2 x3 p1 p2 p3 hS hT hTS h1 h2 h3 hp1 hp2 hp3
    have hf : p1.multishow = false :=
      addAll_same_show w S [x1] _ p1 (by simp [h1]) rfl (Or.inl rfl) hp1
    obtain ⟨_, hl1⟩ := addAll_lastshow w [x1] _ p1 hp1
    have hl1' : p1.lastshow = S := by
      rw [hl1]; simp [newPodcast, h1, hS]
    -- the second and third `Add` start from the state after the first
    obtain ⟨ok1, r2⟩ := addAll_cons w _ p2 x1 [x2] hp2
    obtain ⟨ok1', r3⟩ := addAll_cons w _ p3 x1 [x2, x3] hp3
    obtain ⟨_, e1⟩ := addAll_cons w _ p1 x1 [] hp1
    simp only [addAll, Option.some.injEq] at e1
    rw [e1] at r2 r3
    obtain ⟨ok2, r2'⟩ := addAll_cons w _ p2 x2 [] r2
    simp only [addAll, Option.some.injEq] at r2'
    obtain ⟨ep2, _, hq2⟩ := Add_succeeds w p1 x2.path x2.tags x2.info x2.ext ok2
    have hm2 : p2.multishow = true := by
      rw [← r2', hq2, h2, hl1']
      exact if_pos ⟨hS, fun e => hTS e.symm⟩
    obtain ⟨ok2', r3'⟩ := addAll_cons w _ p3 x2 [x3] r3
    rw [r2'] at r3'
    obtain ⟨ok3, r4⟩ := addAll_cons w _ p3 x3 [] r3'
    simp only [addAll, Option.some.injEq] at r4
    obtain ⟨ep3, _, hq3⟩ := Add_succeeds w p2 x3.path x3.tags x3.info x3.ext ok3
    refine ⟨hf, hm2, ?_⟩
    rw [← r4, hq3]
    simp [hm2]

/-- Witness of C10: shows "Show A", "Show B", "Show A" in turn, and "Show A" twice. -/
theorem multishow_scenarios_witness :
    (∃ p1 p2 p3, addAll exWorld exFresh [exArgsA] = some p1
      ∧ addAll exWorld exFresh [exArgsA, exArgsB] = some p2
      ∧ addAll exWorld exFresh [exArgsA, exArgsB, exArgsA] = some p3
      ∧ p1.multishow = false ∧ p2.multishow = true ∧ p3.multishow = true)
    ∧ (∃ p, addAll exWorld exFresh [exArgsA, exArgsA] = some p ∧ p.multishow = false)
    ∧ (∃ p, addAll exWorld exFresh [exArgsEmpty, exArgsEmpty] = some p
        ∧ p.multishow = false) :=
  ⟨⟨_, _, _, rfl, rfl, rfl,
      (multishow_scenarios exWorld "/out" "https://x.example/feed/" "" "index.xml").2.2
        "Show A" "Show B" exArgsA exArgsB exArgsA _ _ _ (by decide) (by decide) (by decide)
        rfl rfl rfl rfl rfl rfl⟩,
    ⟨_, rfl,
      (multishow_scenarios exWorld "/out" "https://x.example/feed/" "" "index.xml").1
        "Show A" [exArgsA, exArgsA] _ (by decide) (by decide) rfl⟩,
    ⟨_, rfl,
      (multishow_scenarios exWorld "/out" "https://x.example/feed/" "" "index.xml").2.1
        [exArgsEmpty, exArgsEmpty] _ (by decide) rfl⟩⟩

theorem writeLoop_step (w : World) (ep : Episode) (rest : List Episode) (p : Podcast)
    (pc : Feed) :
    writeLoop w (ep :: rest) p pc =
      if w.rejects pc (feedItem p.multishow ep) then
        (if p.Title = "" ∧ ep.Show ≠ "" then { p with Title := ep.Show } else p,
          .error (.addingItem ep.URL))
      else
        writeLoop w rest (if p.Title = "" ∧ ep.Show ≠ "" then { p with Title := ep.Show } else p)
          (pc.AddItem (feedItem p.multishow ep)) := by
  by_cases h : p.Title = "" ∧ ep.Show ≠ ""
  · simp only [writeLoop, if_pos h]
    rfl
  · simp only [writeLoop, if_neg h]
    rfl

theorem writeLoop_items (w : World) (eps : List Episode) :
    ∀ (p : Podcast) (pc feed : Feed), (writeLoop w eps p pc).2 = .ok feed →
      feed.Items = pc.Items ++ eps.map (feedItem p.multishow) := by
  induction eps with
  | nil =>
    intro p pc feed h
    simp only [writeLoop, Except.ok.injEq] at h
    rw [← h]; simp
  | cons ep rest ih =>
    intro p pc feed h
    rw [writeLoop_step] at h
    by_cases hr : w.rejects pc (feedItem p.multishow ep) = true
    · rw [if_pos hr] at h
      simp at h
    · rw [if_neg hr] at h
      have := ih _ _ _ h
      rw [this]
      have hm : (if p.Title = "" ∧ ep.Show ≠ "" then { p with Title := ep.Show } else p).multishow
          = p.multishow := by
        split <;> rfl
      rw [hm]
      simp [Feed.AddItem]

theorem writeLoop_error (w : World) (eps : List Episode) :
    ∀ (p : Podcast) (pc : Feed) (e : Error), (writeLoop w eps p pc).2 = .error e →
      ∃ u, e = .addingItem u := by
  induction eps with
  | nil =>
    intro p pc e h
    simp [writeLoop] at h
  | cons ep rest ih =>
    intro p pc e h
    rw [writeLoop_step] at h
    by_cases hr : w.rejects pc (feedItem p.multishow ep) = true
    · rw [if_pos hr] at h
      simp only [Except.error.injEq] at h
      exact ⟨_, h.symm⟩
    · rw [if_neg hr] at h
      exact ih _ _ _ h

theorem writeLoop_title (w : World) (eps : List Episode) :
    ∀ (p : Podcast) (pc feed : Feed), p.Title = "" → (writeLoop w eps p pc).2 = .ok feed →
      (writeLoop w eps p pc).1.Title
        = ((eps.map (fun e => e.Show)).find? (fun s => s ≠ "")).getD "" := by
  induction eps with
  | nil =>
    intro p pc feed ht _
    simp [writeLoop, ht]
  | cons ep rest ih =>
    intro p pc feed ht h
    rw [writeLoop_step] at h ⊢
    by_cases hr : w.rejects pc (feedItem p.multishow ep) = true
    · rw [if_pos hr] at h
      simp at h
    · rw [if_neg hr] at h ⊢
      by_cases hs : ep.Show = ""
      · have hp : (if p.Title = "" ∧ ep.Show ≠ "" then { p with Title := ep.Show } else p)
            = p := by
          simp [hs]
        rw [hp] at h ⊢
        rw [ih p _ feed ht h]
        simp [hs]
      · have hp : (if p.Title = "" ∧ ep.Show ≠ "" then { p with Title := ep.Show } else p)
            = { p with Title := ep.Show } := by
          simp [hs, ht]
        rw [hp]
        rw [writeLoop_titled w rest _ _ (by exact hs)]
        simp [hs]

theorem Write_snd_error (w : World) (p : Podcast)
    (h : ∀ u, (p.Write w).2 ≠ .error (.addingItem u)) :
    ∃ feed, (writeLoop w p.episodes p
      (podcastNew p.Title p.BaseURL p.Description w.now w.now)).2 = .ok feed := by
  rcases hl : writeLoop w p.episodes p
    (podcastNew p.Title p.BaseURL p.Description w.now w.now) with ⟨p1, r⟩
  cases r with
  | ok feed => exact ⟨feed, rfl⟩
  | error e =>
    exfalso
    obtain ⟨u, hu⟩ := writeLoop_error w p.episodes p _ e (by rw [hl])
    apply h u
    simp only [Podcast.Write, hl, hu]

theorem wrapInt_of_inInt64 (x : Int) (h : inInt64 x) : wrapInt x = x := by
  unfold inInt64 at h
  unfold wrapInt
  omega

theorem wrapInt_add_period (x k : Int) : wrapInt (x + k * 2 ^ 64) = wrapInt x := by
  unfold wrapInt
  omega

theorem digitValue_digitChar (k : Nat) (h : k < 10) : digitValue (Nat.digitChar k) = k := by
  interval_cases k <;> rfl

theorem digitChar_ne_minus (k : Nat) (h : k < 10) : Nat.digitChar k ≠ '-' := by
  interval_cases k <;> decide

theorem foldl_toDigitsCore (fuel : Nat) :
    ∀ (n : Nat) (ds : List Char), n < fuel →
      (Nat.toDigitsCore 10 fuel n ds).foldl (fun acc c => 10 * acc + digitValue c) 0
        = ds.foldl (fun acc c => 10 * acc + digitValue c) n := by
  induction fuel with
  | zero => intro n ds h; omega
  | succ fuel ih =>
    intro n ds h
    have hd : digitValue (Nat.digitChar (n % 10)) = n % 10 :=
      digitValue_digitChar _ (Nat.mod_lt _ (by decide))
    by_cases h0 : n / 10 = 0
    · simp only [Nat.toDigitsCore, h0, if_true, List.foldl_cons, hd]
      congr 1
      omega
    · simp only [Nat.toDigitsCore, h0, if_false]
      rw [ih (n / 10) _ (by omega)]
      simp only [List.foldl_cons, hd]
      congr 1
      omega

theorem toDigitsCore_ne_minus (fuel : Nat) :
    ∀ (n : Nat) (ds : List Char), (∀ c ∈ ds, c ≠ '-') →
      ∀ c ∈ Nat.toDigitsCore 10 fuel n ds, c ≠ '-' := by
  induction fuel with
  | zero => intro n ds h; exact h
  | succ fuel ih =>
    intro n ds h
    have hds : ∀ c ∈ Nat.digitChar (n % 10) :: ds, c ≠ '-' := by
      intro c hc
      rcases List.mem_cons.1 hc with hc | hc
      · rw [hc]; exact digitChar_ne_minus _ (Nat.mod_lt _ (by decide))
      · exact h c hc
    by_cases h0 : n / 10 = 0
    · simp only [Nat.toDigitsCore, h0, if_true]
      exact hds
    · simp only [Nat.toDigitsCore, h0, if_false]
      exact ih _ _ hds

theorem decodeNat_toDigits (n : Nat) : decodeNat (Nat.toDigits 10 n) = n := by
  unfold decodeNat Nat.toDigits
  rw [foldl_toDigitsCore (n + 1) n [] (by omega)]
  rfl

theorem decodeInt_of_ne_minus (l : List Char) (h : ∀ c ∈ l, c ≠ '-') :
    decodeInt l = (decodeNat l : Int) := by
  unfold decodeInt
  split
  · rename_i t
    exact absurd rfl (h '-' (List.mem_cons_self _ _))
  · rfl

theorem decodeInt_toString (z : Int) : decodeInt (toString z).toList = z := by
  cases z with
  | ofNat n =>
    show decodeInt (Nat.toDigits 10 n) = _
    have hm : ∀ c ∈ Nat.toDigits 10 n, c ≠ '-' :=
      toDigitsCore_ne_minus (n + 1) n [] (fun c hc => absurd hc (List.not_mem_nil c))
    rw [decodeInt_of_ne_minus _ hm, decodeNat_toDigits]
    rfl
  | negSucc m =>
    show decodeInt ('-' :: Nat.toDigits 10 (m + 1)) = _
    simp only [decodeInt, decodeNat_toDigits]
    rfl

theorem toString_int_injective {a b : Int} (h : toString a = toString b) : a = b := by
  rw [← decodeInt_toString a, ← decodeInt_toString b, h]

theorem sorted_shows_unique (l1 l2 : List Episode) (hp : l1.Perm l2)
    (h1 : l1.Pairwise (fun a b => lessEpisodes b a = false))
    (h2 : l2.Pairwise (fun a b => lessEpisodes b a = false)) :
    l1.map (fun e => e.Show) = l2.map (fun e => e.Show) := by
  have hle : ∀ a b : Episode, lessEpisodes b a = false → sortKey a ≤ sortKey b := by
    intro a b h
    rw [← Bool.not_eq_true, lessEpisodes_iff_key, not_lt] at h
    exact h
  have k1 : (l1.map sortKey).Sorted (fun x y => x ≤ y) :=
    List.pairwise_map.2 (h1.imp (hle _ _))
  have k2 : (l2.map sortKey).Sorted (fun x y => x ≤ y) :=
    List.pairwise_map.2 (h2.imp (hle _ _))
  have hk := List.eq_of_perm_of_sorted (hp.map sortKey) k1 k2
  have hshow : ∀ l : List Episode, l.map (fun e => e.Show)
      = (l.map sortKey).map (fun k => OrderDual.ofDual (ofLex (ofLex k).2).1) := by
    intro l
    rw [List.map_map]
    rfl
  rw [hshow l1, hshow l2, hk]

/-- C11: every feed document `Write` encodes holds one item per episode, in the
collection's episode order, the title of the item at each position being
`Show + ": " + Title` of the episode there when the collection's `multishow` is
true and `Title` alone otherwise; `Write` does not change the flag; and when the
feed library rejects no item (and the output file can be created and written)
`Write` does encode a feed. -/
theorem Write_item_titles (w : World) (p : Podcast) :
    (∀ feed, (p.Write w).2 = .ok feed →
        feed.Items.length = p.episodes.length
        ∧ feed.Items.map (fun item => item.Title)
            = p.episodes.map (fun ep =>
                if (p.Write w).1.multishow = true then ep.Show ++ ": " ++ ep.Title else ep.Title)
        ∧ ∀ (i : Nat) (ep : Episode), p.episodes[i]? = some ep →
            (feed.Items[i]?).map (fun item => item.Title)
              = some (if p.multishow = true then ep.Show ++ ": " ++ ep.Title else ep.Title))
    ∧ (p.Write w).1.multishow = p.multishow
    ∧ ((∀ pc item, w.rejects pc item = false) → w.createFails = false →
        w.encodeFails = false → ∃ feed, (p.Write w).2 = .ok feed) := by
  have hm : (p.Write w).1.multishow = p.multishow := by
    rw [Write_fst, writeLoop_multishow]
  refine ⟨?_, hm, ?_⟩
  · intro feed hf
    have hi := writeLoop_items w _ _ _ _ (Write_snd_ok w p feed hf)
    simp only [podcastNew, List.nil_append] at hi
    rw [hi, hm]
    refine ⟨by simp, ?_, ?_⟩
    · rw [List.map_map]
      rfl
    · intro i ep hep
      rw [List.getElem?_map, hep]
      rfl
  · intro hw hc he
    obtain ⟨feed, hf⟩ := writeLoop_accepts w hw p.episodes p
      (podcastNew p.Title p.BaseURL p.Description w.now w.now)
    exact ⟨feed, Write_snd_of_ok w p feed hf hc he⟩

/-- Witness of C11: the example collection, whose flag is set. -/
theorem Write_item_titles_witness :
    ∃ feed, (exCollection.Write exWorld).2 = .ok feed
      ∧ feed.Items.map (fun item => item.Title)
          = exCollection.episodes.map (fun ep =>
              if (exCollection.Write exWorld).1.multishow = true then
                ep.Show ++ ": " ++ ep.Title
              else ep.Title) := by
  obtain ⟨feed, hf⟩ := (Write_item_titles exWorld exCollection).2.2 (fun _ _ => rfl) rfl rfl
  exact ⟨feed, hf, ((Write_item_titles exWorld exCollection).1 feed hf).2.1⟩

/-- C15, as the claim states it, fails: for series number 2^62 and episode number
1 the order hint `Write` renders is "1", not the decimal string of
100 * 2^62 + 1. -/
theorem order_hint_overflows :
    inInt64 exHugeSeries.Series ∧ inInt64 exHugeSeries.Episode
    ∧ ((({ exFresh with episodes := [exHugeSeries] } : Podcast).Write exWorld).2.toOption.map
        fun feed => feed.Items.map fun item => item.IOrder) = some ["1"]
    ∧ toString (100 * exHugeSeries.Series + exHugeSeries.Episode) = "461168601842738790401" := by
  decide

/-- C15, amended: in every feed document `Write` encodes, the order hint of the
item at each position is the decimal string of `100 * Series + Episode` of the
episode there computed in 64-bit `int` arithmetic; it is the decimal string of
the exact integer whenever that integer fits in 64 bits, and series 1, episode 1
gives "101". -/
theorem Write_order_hints (w : World) (p : Podcast) (feed : Feed)
    (h : (p.Write w).2 = .ok feed) :
    feed.Items.map (fun item => item.IOrder)
        = p.episodes.map (fun ep => toString (wrapInt (100 * ep.Series + ep.Episode)))
    ∧ (∀ ep ∈ p.episodes, inInt64 (100 * ep.Series + ep.Episode) →
        toString (wrapInt (100 * ep.Series + ep.Episode))
          = toString (100 * ep.Series + ep.Episode))
    ∧ orderHint 1 1 = "101" := by
  have hi := writeLoop_items w _ _ _ _ (Write_snd_ok w p feed h)
  simp only [podcastNew, List.nil_append] at hi
  refine ⟨?_, ?_, by decide⟩
  · rw [hi, List.map_map]
    rfl
  · intro ep _ hr
    rw [wrapInt_of_inInt64 _ hr]

/-- Witness of C15 as amended: the example collection. -/
theorem Write_order_hints_witness :
    ∃ feed, (exCollection.Write exWorld).2 = .ok feed
      ∧ feed.Items.map (fun item => item.IOrder) = ["101", "307", "102"] :=
  ⟨_, rfl, (Write_order_hints exWorld exCollection _ rfl).1.trans (by decide)⟩

/-- C16: the order hint of `(s + 1, e - 100)` is that of `(s, e)`; for 64-bit
numbers with `e >= 100` there is a different pair of 64-bit numbers with a
non-negative episode number and the same hint; and among pairs with
`0 <= e < 100` whose `100 * s + e` fits in 64 bits (no overflow) equal hints
give equal series and episode numbers. -/
theorem orderHint_collisions (s e : Int) :
    orderHint (s + 1) (e - 100) = orderHint s e
    ∧ (inInt64 s → inInt64 e → 100 ≤ e →
        ∃ s2 e2 : Int, inInt64 s2 ∧ inInt64 e2 ∧ 0 ≤ e2 ∧ (s2, e2) ≠ (s, e)
          ∧ orderHint s2 e2 = orderHint s e)
    ∧ (∀ s2 e2 : Int, 0 ≤ e → e < 100 → 0 ≤ e2 → e2 < 100 →
        inInt64 (100 * s + e) → inInt64 (100 * s2 + e2) →
        orderHint s e = orderHint s2 e2 → s = s2 ∧ e = e2) := by
  refine ⟨?_, ?_, ?_⟩
  · unfold orderHint
    congr 2
    ring
  · intro hs he h100
    unfold inInt64 at hs he
    by_cases hmax : s + 1 < 2 ^ 63
    · refine ⟨s + 1, e - 100, ?_, ?_, by omega, ?_, ?_⟩
      · unfold inInt64; omega
      · unfold inInt64; omega
      · intro hc
        have := congrArg Prod.fst hc
        simp at this
      · unfold orderHint
        congr 2
        ring
    · refine ⟨s - 2 ^ 62, e, ?_, ?_, by omega, ?_, ?_⟩
      · unfold inInt64; omega
      · unfold inInt64; omega
      · intro hc
        have := congrArg Prod.fst hc
        simp at this
      · unfold orderHint
        congr 1
        have : 100 * (s - 2 ^ 62) + e = (100 * s + e) + (-25) * 2 ^ 64 := by ring
        rw [this, wrapInt_add_period]
  · intro s2 e2 h1 h2 h3 h4 hr hr2 hh
    unfold orderHint at hh
    have := toString_int_injective hh
    rw [wrapInt_of_inInt64 _ hr, wrapInt_of_inInt64 _ hr2] at this
    omega

/-- Witness of C16: series 1, episode 150 against series 2, episode 50. -/
theorem orderHint_collisions_witness :
    orderHint 2 50 = orderHint 1 150
    ∧ (∃ s2 e2 : Int, inInt64 s2 ∧ inInt64 e2 ∧ 0 ≤ e2 ∧ (s2, e2) ≠ (1, 150)
        ∧ orderHint s2 e2 = orderHint 1 150)
    ∧ ((1 : Int) = 1 ∧ (50 : Int) = 50) :=
  ⟨(orderHint_collisions 1 150).1,
    (orderHint_collisions 1 150).2.1 (by decide) (by decide) (by decide),
    (orderHint_collisions 1 50).2.2 1 50 (by decide) (by decide) (by decide) (by decide)
      (by decide) (by decide) rfl⟩

/-- C17: when the collection's `Title` is empty and `Write` does not stop at a
rejected item, the collection's `Title` afterwards is the show of the first
episode in the current episode order whose show is non-empty, and stays empty
when every episode's show is empty.  It does not depend on the order of
discovery: two collections holding the same episodes in different orders get
the same `Title` from `Sort` followed by `Write`, with any libraries that meet
the contract of `sort.Sort`. -/
theorem Write_infers_title (w : World) (p : Podcast) (ht : p.Title = "")
    (hrun : ∀ u, (p.Write w).2 ≠ .error (.addingItem u)) :
    (p.Write w).1.Title
        = ((p.episodes.map (fun e => e.Show)).find? (fun s => s ≠ "")).getD ""
    ∧ ((∀ ep ∈ p.episodes, ep.Show = "") → (p.Write w).1.Title = "")
    ∧ (∀ (lib lib2 : Nat → SortCalls) (p2 q q2 : Podcast),
        SortContract lib → SortContract lib2 →
        p2.Title = "" → p2.episodes.Perm p.episodes →
        p.Sort lib = some q → p2.Sort lib2 = some q2 →
        (∀ u, (q.Write w).2 ≠ .error (.addingItem u)) →
        (∀ u, (q2.Write w).2 ≠ .error (.addingItem u)) →
        (q.Write w).1.Title = (q2.Write w).1.Title) := by
  have key : ∀ r : Podcast, r.Title = "" → (∀ u, (r.Write w).2 ≠ .error (.addingItem u)) →
      (r.Write w).1.Title
        = ((r.episodes.map (fun e => e.Show)).find? (fun s => s ≠ "")).getD "" := by
    intro r hr hrun
    obtain ⟨feed, hf⟩ := Write_snd_error w r hrun
    rw [Write_fst]
    exact writeLoop_title w _ _ _ feed hr hf
  refine ⟨key p ht hrun, ?_, ?_⟩
  · intro hall
    rw [key p ht hrun]
    have : (p.episodes.map (fun e => e.Show)).find? (fun s => s ≠ "") = none := by
      rw [List.find?_eq_none]
      intro s hs
      obtain ⟨ep, hep, rfl⟩ := List.mem_map.1 hs
      simp [hall ep hep]
    rw [this]
    rfl
  · intro lib lib2 p2 q q2 hlib hlib2 ht2 hperm hq hq2 hrq hrq2
    obtain ⟨r, hr1, hr2, hr3, hr4⟩ := sortSort_sorts lib hlib p
    obtain ⟨r2, hs1, hs2, hs3, hs4⟩ := sortSort_sorts lib2 hlib2 p2
    have e1 : q = r := Option.some.inj (hq.symm.trans hr1)
    have e2 : q2 = r2 := Option.some.inj (hq2.symm.trans hs1)
    subst e1 e2
    have hqt : q.Title = "" := by rw [hr4]; exact ht
    have hq2t : q2.Title = "" := by rw [hs4]; exact ht2
    rw [key q hqt hrq, key q2 hq2t hrq2]
    rw [sorted_shows_unique q.episodes q2.episodes
      (hr2.trans (hperm.symm.trans hs2.symm)) hr3 hs3]

/-- Witness of C17: the untitled example collection holding one episode of "Show A". -/
theorem Write_infers_title_witness :
    exSingle.Title = "" ∧ (exSingle.Write exWorld).1.Title = "Show A" :=
  ⟨by decide,
    (Write_infers_title exWorld exSingle (by decide)
      (fun u h => Except.noConfusion h)).1.trans (by decide)⟩

theorem Add_error_iff (w : World) (p : Podcast) (path : String) (tags : Tags)
    (info : FileInfo) (ext : String) :
    (p.Add w path tags info ext).2 ≠ none ↔
      (w.abs path = none
        ∨ (∃ abspath, w.abs path = some abspath ∧ w.rel p.BaseDir abspath = none)
        ∨ (∃ abspath fpath, w.abs path = some abspath ∧ w.rel p.BaseDir abspath = some fpath
            ∧ w.parse fpath = none)) := by
  rcases h1 : w.abs path with _ | abspath
  · simp [Podcast.Add, h1]
  · rcases h2 : w.rel p.BaseDir abspath with _ | fpath
    · simp [Podcast.Add, h1, h2]
    · rcases h3 : w.parse fpath with _ | furl
      · simp [Podcast.Add, h1, h2, h3]
      · simp [Podcast.Add, h1, h2, h3]

theorem Add_succeeds_episode (w : World) (p : Podcast) (path : String) (tags : Tags)
    (info : FileInfo) (ext : String) (h : (p.Add w path tags info ext).2 = none) :
    ∃ abspath fpath furl, w.abs path = some abspath ∧ w.rel p.BaseDir abspath = some fpath
      ∧ w.parse fpath = some furl
      ∧ (p.Add w path tags info ext).1.episodes
          = p.episodes ++ [addedEpisode w p furl tags info ext] := by
  rcases h1 : w.abs path with _ | abspath
  · simp [Podcast.Add, h1] at h
  · rcases h2 : w.rel p.BaseDir abspath with _ | fpath
    · simp [Podcast.Add, h1, h2] at h
    · rcases h3 : w.parse fpath with _ | furl
      · simp [Podcast.Add, h1, h2, h3] at h
      · refine ⟨abspath, fpath, furl, rfl, h2, h3, ?_⟩
        simp only [Podcast.Add, h1, h2, h3, addedEpisode]
        generalize (if ext = ".mp3" then EnclosureType.MP3 else EnclosureType.M4A) = kind
        split_ifs <;> rfl

theorem Walk_candidate (w : World) (d : Disk) (p : Podcast) (path : String) (info : FileInfo)
    (h : d.ToLower (d.Ext path) = ".m4a" ∨ d.ToLower (d.Ext path) = ".mp3") :
    p.Walk w d path info none =
      match d.Open path with
      | none => (p, some (.cantOpenToReadTags path))
      | some f =>
        match d.ReadFrom f with
        | none => (p, some (.cantParseTags path))
        | some tags => ((p.Add w path tags info (d.ToLower (d.Ext path))).1, none) := by
  simp only [Podcast.Walk, if_pos h]

theorem Walk_other (w : World) (d : Disk) (p : Podcast) (path : String) (info : FileInfo)
    (h : ¬ (d.ToLower (d.Ext path) = ".m4a" ∨ d.ToLower (d.Ext path) = ".mp3")) :
    p.Walk w d path info none = (p, none) := by
  simp only [Podcast.Walk, if_neg h]

/-- C12: on the candidate file "/in/100%.mp3", which opens and whose tags parse
but whose path does not parse as a URL, `Add` returns an error and `Walk` returns
`nil` all the same, leaving the collection as it was. -/
theorem Walk_drops_Add_error :
    exDisk.ToLower (exDisk.Ext "/in/100%.mp3") = ".mp3"
    ∧ exDisk.Open "/in/100%.mp3" = some "/in/100%.mp3"
    ∧ exDisk.ReadFrom "/in/100%.mp3" = some exArgsA.tags
    ∧ (exFresh.Add exStrictWorld "/in/100%.mp3" exArgsA.tags exArgsA.info ".mp3").2
        = some (.cantParseURL "/in/100%.mp3")
    ∧ exFresh.Walk exStrictWorld exDisk "/in/100%.mp3" exArgsA.info none = (exFresh, none) := by
  decide

/-- C13, as the claim states it, fails: for the directory "/in/album.mp3", visited
without a traversal error, `Walk` opens it, fails to parse tags from it and
returns an error. -/
theorem Walk_directory_with_audio_extension :
    exDirInfo.IsDir = true
    ∧ exFresh.Walk exWorld exDisk "/in/album.mp3" exDirInfo none
        = (exFresh, some (.cantParseTags "/in/album.mp3")) := by
  decide

/-- C13, amended: for an entry visited without a traversal error, `Walk` treats
it as a candidate (opens it, parses its tags, passes it to `Add`) if and only if
the extension of its path, lower-cased, is exactly ".m4a" or ".mp3", whether the
entry is a file or a directory; for every other entry it returns `nil` and
leaves the collection unchanged. -/
theorem Walk_candidate_iff_extension (w : World) (d : Disk) (p : Podcast) (path : String)
    (info : FileInfo) :
    ((d.ToLower (d.Ext path) = ".m4a" ∨ d.ToLower (d.Ext path) = ".mp3") →
        p.Walk w d path info none =
          match d.Open path with
          | none => (p, some (.cantOpenToReadTags path))
          | some f =>
            match d.ReadFrom f with
            | none => (p, some (.cantParseTags path))
            | some tags => ((p.Add w path tags info (d.ToLower (d.Ext path))).1, none))
    ∧ (¬ (d.ToLower (d.Ext path) = ".m4a" ∨ d.ToLower (d.Ext path) = ".mp3") →
        p.Walk w d path info none = (p, none))
    ∧ (∀ b : Bool, p.Walk w d path { info with IsDir := b } none = p.Walk w d path info none) := by
  refine ⟨Walk_candidate w d p path info, Walk_other w d p path info, ?_⟩
  intro b
  rfl

/-- Witness of C13 as amended: a text file is skipped, the directory
"/in/album.mp3" is a candidate. -/
theorem Walk_candidate_iff_extension_witness :
    exCollection.Walk exWorld exDisk "/in/notes.txt" exArgsA.info none = (exCollection, none)
    ∧ exFresh.Walk exWorld exDisk "/in/album.mp3" exDirInfo none
        = (exFresh, some (.cantParseTags "/in/album.mp3")) :=
  ⟨(Walk_candidate_iff_extension exWorld exDisk exCollection "/in/notes.txt"
      exArgsA.info).2.1 (by decide),
    ((Walk_candidate_iff_extension exWorld exDisk exFresh "/in/album.mp3" exDirInfo).1
      (by decide)).trans (by decide)⟩

/-- C14, as the claim states it, fails: a successful `Add` with the extension
".MP3" gives the new episode the M4A kind. -/
theorem Add_upper_case_mp3_is_m4a :
    (exFresh.Add exWorld "/in/Ep1.MP3" exArgsA.tags exArgsA.info ".MP3").2 = none
    ∧ ((exFresh.Add exWorld "/in/Ep1.MP3" exArgsA.tags exArgsA.info ".MP3").1.episodes.map
        fun e => e.EnclosureType) = [EnclosureType.M4A] := by
  decide

/-- C14, amended: a successful `Add` gives the new episode the MP3 kind when
`ext` is exactly ".mp3" and the M4A kind for every other `ext`; `Walk` passes
`Add` the lower-cased extension of the path, so an episode added through `Walk`
has the MP3 kind when the extension of its path, lower-cased, is ".mp3", and the
M4A kind otherwise. -/
theorem Add_enclosure_kind (w : World) (p : Podcast) (path : String) (tags : Tags)
    (info : FileInfo) (ext : String) (hok : (p.Add w path tags info ext).2 = none) :
    (∃ ep : Episode, (p.Add w path tags info ext).1.episodes = p.episodes ++ [ep]
        ∧ (ext = ".mp3" → ep.EnclosureType = EnclosureType.MP3)
        ∧ (ext ≠ ".mp3" → ep.EnclosureType = EnclosureType.M4A))
    ∧ (∀ (d : Disk) (f : String),
        (d.ToLower (d.Ext path) = ".m4a" ∨ d.ToLower (d.Ext path) = ".mp3") →
        d.Open path = some f → d.ReadFrom f = some tags → ext = d.ToLower (d.Ext path) →
        ∃ ep : Episode, (p.Walk w d path info none).1.episodes = p.episodes ++ [ep]
          ∧ (d.ToLower (d.Ext path) = ".mp3" → ep.EnclosureType = EnclosureType.MP3)
          ∧ (d.ToLower (d.Ext path) ≠ ".mp3" → ep.EnclosureType = EnclosureType.M4A)) := by
  obtain ⟨abspath, fpath, furl, _, _, _, hep⟩ := Add_succeeds_episode w p path tags info ext hok
  have hk1 : ext = ".mp3" → (addedEpisode w p furl tags info ext).EnclosureType
      = EnclosureType.MP3 := by
    intro h; simp [addedEpisode, h]
  have hk2 : ext ≠ ".mp3" → (addedEpisode w p furl tags info ext).EnclosureType
      = EnclosureType.M4A := by
    intro h; simp [addedEpisode, h]
  refine ⟨⟨_, hep, hk1, hk2⟩, ?_⟩
  intro d f hc ho hr he
  refine ⟨addedEpisode w p furl tags info ext, ?_, ?_, ?_⟩
  · rw [Walk_candidate w d p path info hc]
    simp only [ho, hr]
    rw [← he]; exact hep
  · intro h; exact hk1 (he.trans h)
  · intro h; exact hk2 (fun e => h (he.symm.trans e))

/-- Witness of C14 as amended: the file "/in/Ep1.MP3" added through `Walk`. -/
theorem Add_enclosure_kind_witness :
    (exFresh.Add exWorld "/in/Ep1.MP3" exArgsA.tags exArgsA.info ".mp3").2 = none
    ∧ ∃ ep : Episode,
        (exFresh.Walk exWorld exDisk "/in/Ep1.MP3" exArgsA.info none).1.episodes
          = exFresh.episodes ++ [ep]
        ∧ (exDisk.ToLower (exDisk.Ext "/in/Ep1.MP3") = ".mp3" →
            ep.EnclosureType = EnclosureType.MP3)
        ∧ (exDisk.ToLower (exDisk.Ext "/in/Ep1.MP3") ≠ ".mp3" →
            ep.EnclosureType = EnclosureType.M4A) :=
  ⟨by decide,
    (Add_enclosure_kind exWorld exFresh "/in/Ep1.MP3" exArgsA.tags exArgsA.info ".mp3"
      (by decide)).2 exDisk "/in/Ep1.MP3" (by decide) (by decide) (by decide) (by decide)⟩

/-- C18: a successful `Add` lengthens `episodes` by exactly one, leaves every
episode already there unchanged and at its position, and places last a new
episode whose `Title`, `Show`, `Provider`, `Description`, `Episode` and `Series`
are the title, album, artist, comment, track and disc of the tags and whose
`Bytes` and `Updated` are the size and modification time of the file info. -/
theorem Add_appends_episode (w : World) (p : Podcast) (path : String) (tags : Tags)
    (info : FileInfo) (ext : String) (hok : (p.Add w path tags info ext).2 = none) :
    ∃ ep : Episode,
      (p.Add w path tags info ext).1.episodes = p.episodes ++ [ep]
      ∧ (p.Add w path tags info ext).1.episodes.length = p.episodes.length + 1
      ∧ (∀ i, i < p.episodes.length →
          (p.Add w path tags info ext).1.episodes[i]? = p.episodes[i]?)
      ∧ (p.Add w path tags info ext).1.episodes[p.episodes.length]? = some ep
      ∧ ep.Title = tags.Title ∧ ep.Show = tags.Album ∧ ep.Provider = tags.Artist
      ∧ ep.Description = tags.Comment ∧ ep.Episode = tags.Track ∧ ep.Series = tags.Disc
      ∧ ep.Bytes = info.Size ∧ ep.Updated = info.ModTime := by
  obtain ⟨abspath, fpath, furl, _, _, _, hep⟩ := Add_succeeds_episode w p path tags info ext hok
  refine ⟨addedEpisode w p furl tags info ext, hep, ?_, ?_, ?_,
    rfl, rfl, rfl, rfl, rfl, rfl, rfl, rfl⟩
  · rw [hep]; simp
  · intro i hi
    rw [hep, List.getElem?_append_left hi]
  · rw [hep, List.getElem?_append_right (le_refl _)]
    simp

/-- Witness of C18: an episode of "Show B" added after one of "Show A". -/
theorem Add_appends_episode_witness :
    (exSingle.Add exWorld exArgsB.path exArgsB.tags exArgsB.info exArgsB.ext).2 = none
    ∧ ∃ ep : Episode,
        (exSingle.Add exWorld exArgsB.path exArgsB.tags exArgsB.info exArgsB.ext).1.episodes
          = exSingle.episodes ++ [ep]
        ∧ ep.Show = exArgsB.tags.Album := by
  obtain ⟨ep, h1, _, _, _, _, h2, _⟩ := Add_appends_episode exWorld exSingle exArgsB.path
    exArgsB.tags exArgsB.info exArgsB.ext (by decide)
  exact ⟨by decide, ep, h1, h2⟩

/-- C20: `Add` returns an error exactly when resolving the absolute path,
expressing it relative to `BaseDir`, or parsing the relative path as a URL
fails, and whenever it returns an error the collection (episodes, `lastshow`,
`multishow` and every other field) is as before the call. -/
theorem Add_atomic_on_failure (w : World) (p : Podcast) (path : String) (tags : Tags)
    (info : FileInfo) (ext : String) :
    ((p.Add w path tags info ext).2 ≠ none ↔
        (w.abs path = none
          ∨ (∃ abspath, w.abs path = some abspath ∧ w.rel p.BaseDir abspath = none)
          ∨ (∃ abspath fpath, w.abs path = some abspath
              ∧ w.rel p.BaseDir abspath = some fpath ∧ w.parse fpath = none)))
    ∧ ((p.Add w path tags info ext).2 ≠ none →
        (p.Add w path tags info ext).1 = p
        ∧ (p.Add w path tags info ext).1.episodes = p.episodes
        ∧ (p.Add w path tags info ext).1.lastshow = p.lastshow
        ∧ (p.Add w path tags info ext).1.multishow = p.multishow) := by
  refine ⟨Add_error_iff w p path tags info ext, ?_⟩
  intro h
  have := Add_fails w p path tags info ext h
  rw [this]
  exact ⟨rfl, rfl, rfl, rfl⟩

/-- Witness of C20: a path that does not parse as a URL, on a collection whose
`lastshow` differs from the album of the file. -/
theorem Add_atomic_on_failure_witness :
    (exSingle.Add exStrictWorld "/in/100%.m4a" exArgsB.tags exArgsB.info ".m4a").2 ≠ none
    ∧ (exSingle.Add exStrictWorld "/in/100%.m4a" exArgsB.tags exArgsB.info ".m4a").1 = exSingle :=
  ⟨by decide,
    ((Add_atomic_on_failure exStrictWorld exSingle "/in/100%.m4a" exArgsB.tags exArgsB.info
      ".m4a").2 (by decide)).1⟩

theorem addAll_multishow_set (w : World) (xs : List AddArgs) :
    ∀ (p q : Podcast), p.lastshow ≠ "" → addAll w p xs = some q →
      (q.multishow = true ↔
        (p.multishow = true ∨ ∃ s ∈ xs.map (fun x => x.tags.Album), s ≠ p.lastshow)) := by
  induction xs with
  | nil =>
    intro p q _ h
    simp only [addAll, Option.some.injEq] at h
    rw [← h]; simp
  | cons x xs ih =>
    intro p q hl h
    obtain ⟨hok, hrest⟩ := addAll_cons w p q x xs h
    obtain ⟨ep, _, hp⟩ := Add_succeeds w p x.path x.tags x.info x.ext hok
    rw [hp] at hrest
    have hih := ih _ q (by simp [hl]) hrest
    rw [hih]
    simp only [hl, if_false, ne_eq, not_false_eq_true, true_and, List.map_cons,
      List.mem_cons, exists_eq_or_imp]
    by_cases hs : p.lastshow = x.tags.Album
    · simp [hs]
    · have hs2 : ¬ x.tags.Album = p.lastshow := fun e => hs e.symm
      simp [hs, hs2]

theorem addAll_multishow_unset (w : World) (xs : List AddArgs) :
    ∀ (p q : Podcast), p.lastshow = "" → p.multishow = false → addAll w p xs = some q →
      (q.multishow = true ↔
        ∃ a ∈ (xs.map (fun x => x.tags.Album)).dropWhile (fun s => s = ""),
          ∃ b ∈ (xs.map (fun x => x.tags.Album)).dropWhile (fun s => s = ""), a ≠ b) := by
  induction xs with
  | nil =>
    intro p q _ hm h
    simp only [addAll, Option.some.injEq] at h
    rw [← h, hm]; simp
  | cons x xs ih =>
    intro p q hl hm h
    obtain ⟨hok, hrest⟩ := addAll_cons w p q x xs h
    obtain ⟨ep, _, hp⟩ := Add_succeeds w p x.path x.tags x.info x.ext hok
    rw [hp] at hrest
    by_cases hs : x.tags.Album = ""
    · have := ih _ q (by simp [hl, hs]) (by simp [hl, hm]) hrest
      rw [this]
      simp [hs]
    · have := addAll_multishow_set w xs _ q (by simpa [hl] using hs) hrest
      rw [this]
      simp only [hl, ne_eq, not_true_eq_false, false_and, if_false, if_true, hm,
        Bool.false_eq_true, false_or, List.map_cons]
      rw [List.dropWhile_cons_of_neg (by simpa using hs)]
      constructor
      · rintro ⟨s, hs1, hs2⟩
        exact ⟨s, List.mem_cons_of_mem _ hs1, x.tags.Album, List.mem_cons_self _ _, hs2⟩
      · rintro ⟨a, ha, b, hb, hab⟩
        rcases List.mem_cons.1 ha with ha | ha
        · rcases List.mem_cons.1 hb with hb | hb
          · exact absurd (ha.trans hb.symm) hab
          · exact ⟨b, hb, fun e => hab (ha.trans e.symm)⟩
        · by_cases hax : a = x.tags.Album
          · rcases List.mem_cons.1 hb with hb | hb
            · exact absurd (hax.trans hb.symm) hab
            · exact ⟨b, hb, fun e => hab (hax.trans e.symm)⟩
          · exact ⟨a, ha, hax⟩

/-- C19, as the claim states it, fails: from the collection `main` constructs,
after successful `Add`s of an episode with the empty show and one of "Show A"
the episodes carry two distinct show values and `multishow` is false. -/
theorem two_shows_flag_unset :
    ((addAll exWorld exFresh [exArgsEmpty, exArgsA]).map fun p =>
        (p.episodes.map (fun e => e.Show), p.multishow))
      = some (["", "Show A"], false) := by
  decide

/-- C19, amended: from the collection `main` constructs, after every run of
successful `Add`s `multishow` is true if and only if the episodes from the first
one with a non-empty show onwards carry more than one distinct show value
(episodes with the empty show added before it do not count); so a set flag
means more than one distinct show value among the added episodes. -/
theorem multishow_iff_distinct_shows (w : World) (baseDir baseURL title outFile : String)
    (xs : List AddArgs) (p : Podcast)
    (h : addAll w (newPodcast baseDir baseURL title outFile) xs = some p) :
    p.episodes.map (fun e => e.Show) = xs.map (fun x => x.tags.Album)
    ∧ (p.multishow = true ↔
        ∃ a ∈ (p.episodes.map (fun e => e.Show)).dropWhile (fun s => s = ""),
          ∃ b ∈ (p.episodes.map (fun e => e.Show)).dropWhile (fun s => s = ""), a ≠ b)
    ∧ (p.multishow = true →
        ∃ a ∈ p.episodes.map (fun e => e.Show), ∃ b ∈ p.episodes.map (fun e => e.Show),
          a ≠ b) := by
  have h1 : p.episodes.map (fun e => e.Show) = xs.map (fun x => x.tags.Album) := by
    rw [(addAll_lastshow w xs _ p h).1]; rfl
  have h2 := addAll_multishow_unset w xs _ p rfl rfl h
  rw [← h1] at h2
  refine ⟨h1, h2, ?_⟩
  intro hm
  obtain ⟨a, ha, b, hb, hab⟩ := h2.1 hm
  exact ⟨a, (List.dropWhile_sublist _).subset ha, b, (List.dropWhile_sublist _).subset hb, hab⟩

/-- Witness of C19 as amended: shows "", "Show A", "Show B" in turn. -/
theorem multishow_iff_distinct_shows_witness :
    ∃ p, addAll exWorld (newPodcast "/out" "https://x.example/feed/" "" "index.xml")
        [exArgsEmpty, exArgsA, exArgsB] = some p
      ∧ (p.multishow = true ↔
        ∃ a ∈ (p.episodes.map (fun e => e.Show)).dropWhile (fun s => s = ""),
          ∃ b ∈ (p.episodes.map (fun e => e.Show)).dropWhile (fun s => s = ""), a ≠ b) :=
  ⟨_, rfl, (multishow_iff_distinct_shows exWorld "/out" "https://x.example/feed/" ""
    "index.xml" [exArgsEmpty, exArgsA, exArgsB] _ rfl).2.1⟩

end Podcaster
